import Mathlib

/-!
Verification of the cinq-collector-dns DNS collector.

This file embeds the two source files of the repository:

* `cinq_collector_dns/__init__.py` — the `DNSCollector` plugin: the AXFR and
  CloudFlare source adapters (`get_axfr_records`, `get_cloudflare_records`,
  the `__cloudflare_list_zones` / `__cloudflare_list_zone_records` pagination
  helpers) and the reconciliation engine `process_zones`.
* `cinq_collector_dns/views.py` — the browsing views; only `DNSZoneRecords.get`
  carries logic worth verifying.

External collaborators (`cloud_inquisitor` storage objects, `get_resource_id`,
the HTTP session, the DNS transfer) are modelled at their interface: storage is
an explicit `Store` value threaded through the engine together with a write
log, `get_resource_id` is an injective constructor of opaque ids, and the
network is a function from page numbers to responses.  `db.session` semantics
follow the source: changes accumulate and become durable at each
`db.session.commit()`; `db.session.rollback()` discards everything since the
last commit.  Exceptions inside a per-zone record pass are modelled by a fault
oracle choosing, per zone, whether the pass completes, fails before the first
commit, or fails between the two commits.
-/

/-! ## Python string ordering

Python compares strings lexicographically by code point; `sorted` on a list of
strings uses that order.  Mathlib's `String` order is not kernel-reducible, so
we use an explicit boolean comparison on the underlying character lists. -/

def lexLeB : List Char → List Char → Bool
  | [], _ => true
  | _ :: _, [] => false
  | c :: cs, d :: ds =>
    if c.toNat < d.toNat then true
    else if d.toNat < c.toNat then false
    else lexLeB cs ds

/-- `strLe a b` models Python `a <= b` on `str`: lexicographic by code point. -/
def strLe (a b : String) : Prop := lexLeB a.data b.data = true

instance : DecidableRel strLe := fun _ _ => instDecidableEqBool _ _

/-- Model of Python `sorted` on a list of strings. -/
def sortStrings (l : List String) : List String := List.insertionSort strLe l

/-! ## Generic list helpers

`updateFirst p f l` modifies the first element of `l` satisfying `p`.  It
models the Python pattern of fetching a single object out of a dict or via a
DB query (`DNSZone.get`, `existing_records[data['id']]`) and mutating it in
place: the backing collection sees the mutation at exactly that element. -/

def updateFirst {α : Type} (p : α → Bool) (f : α → α) : List α → List α
  | [] => []
  | x :: xs => if p x then f x :: xs else x :: updateFirst p f xs

/-! ## CloudFlare raw rows and the per-zone merge

`__cloudflare_list_zone_records` keeps a dict from record name to an
in-progress merged record.  A Python dict preserves insertion order, so the
dict is modelled as a list of merged records with distinct names;
`list(records.values())` is the list itself. -/

/-- One raw row of the CloudFlare `dns_records` API, restricted to the fields
the collector reads (`name`, `content`, `type`). -/
structure RawRecord where
  name : String
  content : String
  type : String
deriving DecidableEq, Repr

/-- One entry of the `records` dict built by `__cloudflare_list_zone_records`:
keys are inserted in the order `name`, `value`, `type`. -/
structure MergedRecord where
  name : String
  value : List String
  type : String
deriving DecidableEq, Repr

/-- One iteration of `for record in response['result']` in
`__cloudflare_list_zone_records` (source lines 349-357). -/
def mergeStep (recs : List MergedRecord) (r : RawRecord) : List MergedRecord :=
  if recs.any (fun m => decide (m.name = r.name)) then
    updateFirst (fun m => decide (m.name = r.name))
      (fun m => { m with value := sortStrings (m.value ++ [r.content]) }) recs
  else
    recs ++ [{ name := r.name, value := sortStrings [r.content], type := r.type }]

/-- The merge of a sequence of raw rows into the per-name records dict. -/
def mergeRows (rows : List RawRecord) : List MergedRecord := rows.foldl mergeStep []

/-- Lookup by name in the merged-records dict. -/
def lookupName (recs : List MergedRecord) (n : String) : Option MergedRecord :=
  recs.find? (fun m => decide (m.name = n))

/-! ## CloudFlare pagination

`__cloudflare_request` returns the decoded JSON body; the loops read
`response['result']` and `response['result_info']['total_pages']`.  A response
is modelled as the result list plus the optional `total_pages` entry.  The
`while not done` loops have no bound in the source, so they are embedded with
explicit fuel: `none` means the fuel was exhausted, i.e. the loop was still
running after `fuel` requests.  Both functions also return the list of page
numbers actually requested. -/

structure CFPage (α : Type) where
  result : List α
  total_pages : Option Nat

/-- The loop exit test of both pagination helpers:
`'total_pages' not in info or page == info['total_pages']`. -/
def pageDone (info : Option Nat) (page : Nat) : Bool :=
  match info with
  | none => true
  | some t => page == t

/-- The `while not done` loop of `__cloudflare_list_zones` (lines 305-321),
starting at page `page` with `fuel` requests allowed. -/
def cfListZonesLoop {α : Type} (fetch : Nat → CFPage α) : Nat → Nat → Option (List Nat × List α)
  | 0, _ => none
  | fuel + 1, page =>
    let resp := fetch page
    if pageDone resp.total_pages page then
      some ([page], resp.result)
    else
      match cfListZonesLoop fetch fuel (page + 1) with
      | none => none
      | some (ps, out) => some (page :: ps, resp.result ++ out)

/-- `__cloudflare_list_zones`: page numbers start at 1. -/
def cloudflare_list_zones {α : Type} (fetch : Nat → CFPage α) (fuel : Nat) :
    Option (List Nat × List α) :=
  cfListZonesLoop fetch fuel 1

/-- The `while not done` loop of `__cloudflare_list_zone_records`
(lines 334-359), carrying the merged-records dict across pages. -/
def cfListRecordsLoop (fetch : Nat → CFPage RawRecord) :
    Nat → Nat → List MergedRecord → Option (List Nat × List MergedRecord)
  | 0, _, _ => none
  | fuel + 1, page, recs =>
    let resp := fetch page
    let recs2 := resp.result.foldl mergeStep recs
    if pageDone resp.total_pages page then
      some ([page], recs2)
    else
      match cfListRecordsLoop fetch fuel (page + 1) recs2 with
      | none => none
      | some (ps, out) => some (page :: ps, out)

/-- `__cloudflare_list_zone_records`: page numbers start at 1, the dict starts
empty, and `list(records.values())` is returned. -/
def cloudflare_list_zone_records (fetch : Nat → CFPage RawRecord) (fuel : Nat) :
    Option (List Nat × List MergedRecord) :=
  cfListRecordsLoop fetch fuel 1 []

/-! ## Resource ids

`cloud_inquisitor.utils.get_resource_id` is an external collaborator: a
deterministic, collision-resistant identity function over a kind tag and a
sequence of string arguments (spec section 4.1).  It is modelled as an
injective constructor: the id is the tuple of its inputs, which realises
determinism and collision-resistance exactly. -/

/-- One positional argument of `get_resource_id`: the collector passes either
a plain string or a list of `key=value` strings. -/
inductive IdPart where
  | s (v : String)
  | l (vs : List String)
deriving DecidableEq, Repr

/-- Model of `get_resource_id(kind, *parts)`. -/
structure ResourceId where
  kind : String
  parts : List IdPart
deriving DecidableEq, Repr

def get_resource_id (kind : String) (parts : List IdPart) : ResourceId :=
  ⟨kind, parts⟩

/-- A Python value that can appear on the right of a `'{}={}'.format(k, v)`
rendering in this code base: a string, a number rendered as a string, or a
list of strings. -/
inductive PyVal where
  | str (s : String)
  | strList (l : List String)
deriving DecidableEq, Repr

/-- A single apostrophe, as used by Python `str(list)` to quote elements. -/
def pyQuote : String := String.mk [Char.ofNat 39]

/-- Python `str(v)` for the values above: a string renders as itself, a list
of strings as `[` quoted elements joined by `, ` `]`. -/
def pyStr : PyVal → String
  | .str s => s
  | .strList l => "[" ++ String.intercalate ", " (l.map (fun s => pyQuote ++ s ++ pyQuote)) ++ "]"

/-- `'{}={}'.format(k, v)`. -/
def kvString (k : String) (v : PyVal) : String := k ++ "=" ++ pyStr v

/-! ## Snapshot shape

Both adapters produce `list`s of zone `dict`s with keys `zone_id`, `name`,
`source`, `comment`, `tags`, `records`; each record `dict` has keys `id`,
`zone_id`, `name`, `value`, `type`.  The engine is generic in the id type `ι`
(ids are opaque to it); the adapters instantiate `ι := ResourceId`. -/

structure SnapRecord (ι : Type) where
  id : ι
  zone_id : ι
  name : String
  value : List String
  type : String
deriving DecidableEq, Repr

structure SnapZone (ι : Type) where
  zone_id : ι
  name : String
  source : String
  comment : Option String
  tags : List (String × String)
  records : List (SnapRecord ι)
deriving DecidableEq, Repr

/-! ## CloudFlare adapter (`get_cloudflare_records`, lines 231-265)

Inputs: the list of zone objects returned by `__cloudflare_list_zones` (the
fields read are `id` and `name`), and for each zone the merged record list
returned by `__cloudflare_list_zone_records` — or a `CloudFlareError`, which
the source catches per zone (the zone is skipped). -/

structure CFZone where
  id : String
  name : String
deriving DecidableEq, Repr

def cfZoneId (zname : String) : ResourceId := get_resource_id "cfz" [.s zname]

/-- `['{}={}'.format(k, v) for k, v in record.items()]` for a merged record:
dict insertion order is `name`, `value`, `type` (the merge only reassigns
`value`, which keeps its position). -/
def mergedItems (m : MergedRecord) : List String :=
  [kvString "name" (.str m.name), kvString "value" (.strList m.value),
   kvString "type" (.str m.type)]

/-- The record id computed at source line 253: from the adapter tag `cfr`, the
zone's native CloudFlare id, and the rendering of the *merged* record. -/
def cfRecordId (zobjId : String) (m : MergedRecord) : ResourceId :=
  get_resource_id "cfr" [.s zobjId, .l (mergedItems m)]

/-- The snapshot record built at lines 252-258 from one merged record. -/
def cfEmitRecord (zobj : CFZone) (m : MergedRecord) : SnapRecord ResourceId :=
  { id := cfRecordId zobj.id m
    zone_id := cfZoneId zobj.name
    name := m.name
    value := m.value
    type := m.type }

/-- The snapshot zone built at lines 242-258 for one CloudFlare zone object. -/
def cfEmitZone (zobj : CFZone) (recs : List MergedRecord) : SnapZone ResourceId :=
  { zone_id := cfZoneId zobj.name
    name := zobj.name
    source := "CloudFlare"
    comment := none
    tags := []
    records := recs.map (cfEmitRecord zobj) }

/-- One iteration of `for zobj in self.__cloudflare_list_zones()`. -/
def cfZoneStep (recordsOf : String → Except Unit (List MergedRecord))
    (zones : List (SnapZone ResourceId)) (zobj : CFZone) : List (SnapZone ResourceId) :=
  match recordsOf zobj.id with
  | .error _ => zones
  | .ok recs =>
    let zone := cfEmitZone zobj recs
    if zone.records.length > 0 then zones ++ [zone] else zones

def get_cloudflare_records (zlist : List CFZone)
    (recordsOf : String → Except Unit (List MergedRecord)) : List (SnapZone ResourceId) :=
  zlist.foldl (cfZoneStep recordsOf) []

/-! ## AXFR adapter (`get_axfr_records`, lines 190-229)

Input: the configured domain list and, per domain, the rows produced by
iterating the transferred zone.  Each row models one `rr` dict of line 211:
`rname` is the derelativized fully-qualified `record_name` of line 212,
`rnameRel` is what `str(rr['name'])` renders at line 215 — the relative name
object as iterated, before derelativization — and `rdataText` / `rdtype` are
the rdata's text and type text.  An exception while transferring a zone is
logged and re-raised, so the whole call fails. -/

structure AxfrRow where
  rname : String
  rnameRel : String
  ttl : Nat
  rdataText : String
  rdtype : String
deriving DecidableEq, Repr

def axfrZoneId (zoneName : String) : ResourceId := get_resource_id "axfrz" [.s zoneName]

/-- The record id of source line 215: adapter tag `axfrr`, the derelativized
`record_name`, and the `key=value` rendering of the `rr` dict (keys `name`,
`ttl`, `rdata`).  `rr['name']` is the relative name object, so the `name=`
component renders the relative name, not the derelativized one. -/
def axfrRecordId (recordName : String) (row : AxfrRow) : ResourceId :=
  get_resource_id "axfrr" [.s recordName,
    .l [kvString "name" (.str row.rnameRel), kvString "ttl" (.str (toString row.ttl)),
        kvString "rdata" (.str row.rdataText)]]

/-- The snapshot record built at lines 213-220 from one transferred row. -/
def axfrEmitRecord (d : String) (row : AxfrRow) : SnapRecord ResourceId :=
  { id := axfrRecordId row.rname row
    zone_id := axfrZoneId d
    name := row.rname
    value := sortStrings [row.rdataText]
    type := row.rdtype }

/-- The snapshot zone built at lines 200-220 for one configured domain. -/
def axfrEmitZone (d : String) (rows : List AxfrRow) : SnapZone ResourceId :=
  { zone_id := axfrZoneId d
    name := d
    source := "AXFR"
    comment := none
    tags := []
    records := rows.map (axfrEmitRecord d) }

def get_axfr_records (domains : List String)
    (xfr : String → Except Unit (List AxfrRow)) : Except Unit (List (SnapZone ResourceId)) :=
  match domains with
  | [] => .ok []
  | d :: ds =>
    match xfr d with
    | .error e => .error e
    | .ok rows =>
      let zone := axfrEmitZone d rows
      match get_axfr_records ds xfr with
      | .error e => .error e
      | .ok rest => .ok (if zone.records.length > 0 then zone :: rest else rest)

/-! ## Stored inventory and the reconciliation engine (`process_zones`, lines 92-188)

The storage collaborator is modelled as the account's list of stored zones,
each owning its records, together with a log of the storage writes performed
(`db.session.add` of a changed resource, `DNSZone.create` / `DNSRecord.create`,
`db.session.delete`).  `DNSZone.create` stores
`{k: v for k, v in data.items() if k not in ('records', 'zone_id', 'tags')}`
as properties — the keys `name`, `source`, `comment` — plus the tags;
`update(data)` is the field-level compare-and-set of the same fields, returning
whether anything changed.  `DNSRecord.create` stores the record keys other
than `records`/`zone_id` — `name`, `value`, `type` (plus the id itself). -/

structure ZoneProps where
  name : String
  source : String
  comment : Option String
deriving DecidableEq, Repr

structure RecordProps where
  name : String
  value : List String
  type : String
deriving DecidableEq, Repr

structure StoredRecord (ι : Type) where
  id : ι
  props : RecordProps
deriving DecidableEq, Repr

structure StoredZone (ι : Type) where
  zone_id : ι
  props : ZoneProps
  tags : List (String × String)
  records : List (StoredRecord ι)
deriving DecidableEq, Repr

structure Store (ι : Type) where
  zones : List (StoredZone ι)
deriving DecidableEq, Repr

inductive WriteOp (ι : Type) where
  | updZone (id : ι)
  | createZone (id : ι)
  | updRecord (id : ι)
  | createRecord (id : ι)
  | deleteRecord (id : ι)
  | deleteZone (id : ι)
deriving DecidableEq, Repr

/-- The zone properties `DNSZone.create` receives and `update` compares. -/
def zonePropsOf {ι : Type} (z : SnapZone ι) : ZoneProps := ⟨z.name, z.source, z.comment⟩

/-- The record properties `DNSRecord.create` receives and `update` compares. -/
def recPropsOf {ι : Type} (r : SnapRecord ι) : RecordProps := ⟨r.name, r.value, r.type⟩

/-- `DNSZone.get`: fetch a stored zone by id. -/
def getZone {ι : Type} [DecidableEq ι] (s : Store ι) (i : ι) : Option (StoredZone ι) :=
  s.zones.find? (fun z => decide (z.zone_id = i))

/-- One iteration of the zone upsert loop (lines 97-117).  `origIds` is the
key set of the prefetched `existing_zones` dict; the `in existing_zones` test
uses it, while `DNSZone.get` reads the current store. -/
def zUpsertStep {ι : Type} [DecidableEq ι] (origIds : List ι)
    (acc : Store ι × List (WriteOp ι)) (z : SnapZone ι) : Store ι × List (WriteOp ι) :=
  if z.zone_id ∈ origIds then
    match getZone acc.1 z.zone_id with
    | none => acc
    | some sz =>
      (⟨updateFirst (fun w => decide (w.zone_id = z.zone_id))
          (fun w => { w with props := zonePropsOf z, tags := z.tags }) acc.1.zones⟩,
       acc.2 ++ (if sz.props = zonePropsOf z ∧ sz.tags = z.tags then []
                 else [.updZone z.zone_id]))
  else
    (⟨acc.1.zones ++ [⟨z.zone_id, zonePropsOf z, z.tags, []⟩]⟩,
     acc.2 ++ [.createZone z.zone_id])

def zoneUpsertPhase {ι : Type} [DecidableEq ι] (snap : List (SnapZone ι)) (s : Store ι) :
    Store ι × List (WriteOp ι) :=
  snap.foldl (zUpsertStep (s.zones.map (·.zone_id))) (s, [])

/-- The per-zone delete block of lines 124-135: the zone's records are deleted
first, then the zone itself. -/
def zoneDeleteBlock {ι : Type} [DecidableEq ι] (snapIds : List ι) (sz : StoredZone ι) :
    List (WriteOp ι) :=
  if sz.zone_id ∈ snapIds then []
  else sz.records.map (fun r => .deleteRecord r.id) ++ [.deleteZone sz.zone_id]

/-- The zone deletion loop over `ezk - zk` (lines 121-136): `existing_zones`
are the prefetched zone objects of the original store; zones in the snapshot
were never touched, so their records are the original ones. -/
def zoneDeletePhase {ι : Type} [DecidableEq ι] (origZones : List (StoredZone ι))
    (snapIds : List ι) (s : Store ι) : Store ι × List (WriteOp ι) :=
  (⟨s.zones.filter (fun w =>
      !(decide (w.zone_id ∈ origZones.map (·.zone_id)) && decide (w.zone_id ∉ snapIds)))⟩,
   (origZones.map (zoneDeleteBlock snapIds)).flatten)

/-- Zone-level phase (lines 95-137): upsert every snapshot zone, commit, then
delete every stored zone absent from the snapshot, commit. -/
def phase1 {ι : Type} [DecidableEq ι] (snap : List (SnapZone ι)) (s : Store ι) :
    Store ι × List (WriteOp ι) :=
  let a := zoneUpsertPhase snap s
  let b := zoneDeletePhase s.zones (snap.map (·.zone_id)) a.1
  (b.1, a.2 ++ b.2)

/-- Where, if anywhere, the bare `except` of lines 182-187 fires inside one
zone's record pass.  The pass commits twice (lines 168 and 181): a fault
before the first commit rolls everything back; a fault after it leaves the
committed creates/updates in place and rolls back only the pending deletes. -/
inductive RecFault where
  | ok
  | failUpsert
  | failDelete
deriving DecidableEq, Repr

/-- One iteration of the record upsert loop (lines 145-167).  The prefetched
`existing_records` dict (`orig`) serves both the membership test of line 146
and the lookup of line 147.  When `record.update(data)` returns `True`, the
debug call of lines 149-153 evaluates `zone.name` on the snapshot **dict**
bound by `for zone in zones` at line 140 (contrast line 164, which correctly
writes `zone['name']`): a dict has no `name` attribute, so line 151 raises
`AttributeError` deterministically before `db.session.add` is reached.  The
`Except.error` return models that raise; the in-place mutation `update`
performed is uncommitted and is discarded by the rollback of line 187 together
with everything else, so the error carries no state.  When the properties are
already equal, `update` returns `False` and nothing happens. -/
def rUpsertStep {ι : Type} [DecidableEq ι] (orig : List (StoredRecord ι))
    (acc : List (StoredRecord ι) × List (WriteOp ι)) (r : SnapRecord ι) :
    Except Unit (List (StoredRecord ι) × List (WriteOp ι)) :=
  if r.id ∈ orig.map (·.id) then
    match orig.find? (fun x => decide (x.id = r.id)) with
    | none => .ok acc
    | some sr =>
      if sr.props = recPropsOf r then .ok acc
      else .error ()
  else
    .ok (acc.1 ++ [⟨r.id, recPropsOf r⟩], acc.2 ++ [.createRecord r.id])

/-- The record upsert loop (lines 145-167): the raise of line 151 aborts the
remainder of the loop, the exception propagating to the bare `except` of
line 182. -/
def recordUpsertGo {ι : Type} [DecidableEq ι] (orig : List (StoredRecord ι)) :
    List (SnapRecord ι) → List (StoredRecord ι) × List (WriteOp ι) →
    Except Unit (List (StoredRecord ι) × List (WriteOp ι))
  | [], acc => .ok acc
  | r :: rs, acc =>
    match rUpsertStep orig acc r with
    | .error e => .error e
    | .ok acc2 => recordUpsertGo orig rs acc2

def recordUpsert {ι : Type} [DecidableEq ι] (orig : List (StoredRecord ι))
    (snapRecs : List (SnapRecord ι)) :
    Except Unit (List (StoredRecord ι) × List (WriteOp ι)) :=
  recordUpsertGo orig snapRecs (orig, [])

/-- The record deletion loop over `erk - rk` (lines 170-180). -/
def recordDelete {ι : Type} [DecidableEq ι] (orig : List (StoredRecord ι))
    (snapIds : List ι) (cur : List (StoredRecord ι)) :
    List (StoredRecord ι) × List (WriteOp ι) :=
  (cur.filter (fun x => !(decide (x.id ∈ orig.map (·.id)) && decide (x.id ∉ snapIds))),
   (orig.filter (fun x => decide (x.id ∉ snapIds))).map (fun x => .deleteRecord x.id))

/-- Replace the record list of the stored zone with the given id. -/
def setZoneRecords {ι : Type} [DecidableEq ι] (s : Store ι) (i : ι)
    (recs : List (StoredRecord ι)) : Store ι :=
  ⟨updateFirst (fun w => decide (w.zone_id = i)) (fun w => { w with records := recs }) s.zones⟩

/-- One zone's record pass (lines 140-187).  A missing zone makes line 143
raise, which the bare `except` catches after rolling back: no writes.  The
fault oracle decides whether the environment lets the pass complete (`ok`),
raises before the commit of line 168 (`failUpsert`: full rollback), or raises
after it and before the commit of line 181 completes (`failDelete`: the
upserts are already durable, the deletes are rolled back).  Independently of
the oracle, a changed matched record makes line 151 itself raise inside the
upsert loop — before the first commit — so the whole pass rolls back and the
zone's stored entry is untouched. -/
def recordPhaseZone {ι : Type} [DecidableEq ι] (fault : ι → RecFault) (s : Store ι)
    (z : SnapZone ι) : Store ι × List (WriteOp ι) :=
  match getZone s z.zone_id with
  | none => (s, [])
  | some sz =>
    match fault z.zone_id with
    | .failUpsert => (s, [])
    | .failDelete =>
      match recordUpsert sz.records z.records with
      | .error _ => (s, [])
      | .ok a => (setZoneRecords s z.zone_id a.1, a.2)
    | .ok =>
      match recordUpsert sz.records z.records with
      | .error _ => (s, [])
      | .ok a =>
        (setZoneRecords s z.zone_id
           (recordDelete sz.records (z.records.map (·.id)) a.1).1,
         a.2 ++ (recordDelete sz.records (z.records.map (·.id)) a.1).2)

/-- Record-level phase (lines 140-188): every snapshot zone is processed, in
order, each pass isolated by the bare `except`. -/
def phase2Step {ι : Type} [DecidableEq ι] (fault : ι → RecFault)
    (acc : Store ι × List (WriteOp ι)) (z : SnapZone ι) : Store ι × List (WriteOp ι) :=
  let r := recordPhaseZone fault acc.1 z
  (r.1, acc.2 ++ r.2)

def phase2 {ι : Type} [DecidableEq ι] (fault : ι → RecFault) (snap : List (SnapZone ι))
    (s : Store ι) : Store ι × List (WriteOp ι) :=
  snap.foldl (phase2Step fault) (s, [])

/-- `DNSCollector.process_zones(zones, account)`: the zone phase followed by
the per-zone record phase, returning the final store and the write log. -/
def process_zones {ι : Type} [DecidableEq ι] (snap : List (SnapZone ι)) (s : Store ι)
    (fault : ι → RecFault) : Store ι × List (WriteOp ι) :=
  let a := phase1 snap s
  let b := phase2 fault snap a.1
  (b.1, a.2 ++ b.2)

/-- A run in which no zone's record pass raises. -/
def noFault {ι : Type} : ι → RecFault := fun _ => .ok

/-- What one zone's record pass does to that zone's stored entry, as a
function of the entry it reads: nothing when the zone is missing, the pass
fails before the first commit, or the upsert loop raises at line 151; the
upserts only when it fails between the two commits; the upserts and deletes
when it completes. -/
def zoneRecordOutcome {ι : Type} [DecidableEq ι] (fault : ι → RecFault) (z : SnapZone ι) :
    Option (StoredZone ι) → Option (StoredZone ι)
  | none => none
  | some sz =>
    match fault z.zone_id with
    | .failUpsert => some sz
    | .failDelete =>
      match recordUpsert sz.records z.records with
      | .error _ => some sz
      | .ok a => some { sz with records := a.1 }
    | .ok =>
      match recordUpsert sz.records z.records with
      | .error _ => some sz
      | .ok a => some { sz with records :=
          (recordDelete sz.records (z.records.map (·.id)) a.1).1 }

/-- The write log one zone's record pass emits, as a function of the entry it
reads. -/
def zoneLogOutcome {ι : Type} [DecidableEq ι] (fault : ι → RecFault) (z : SnapZone ι) :
    Option (StoredZone ι) → List (WriteOp ι)
  | none => []
  | some sz =>
    match fault z.zone_id with
    | .failUpsert => []
    | .failDelete =>
      match recordUpsert sz.records z.records with
      | .error _ => []
      | .ok a => a.2
    | .ok =>
      match recordUpsert sz.records z.records with
      | .error _ => []
      | .ok a => a.2 ++ (recordDelete sz.records (z.records.map (·.id)) a.1).2

/-- Stored records agree with a snapshot zone's record list: every stored id
comes from the snapshot, and every snapshot record is stored with exactly its
properties. -/
def RecordsSynced {ι : Type} [DecidableEq ι] (rs : List (SnapRecord ι))
    (stored : List (StoredRecord ι)) : Prop :=
  (∀ sr ∈ stored, sr.id ∈ rs.map (·.id)) ∧
  (∀ r ∈ rs, stored.find? (fun x => decide (x.id = r.id)) = some ⟨r.id, recPropsOf r⟩)

/-- The store is settled with respect to a snapshot: stored zone ids all come
from the snapshot, and every snapshot zone is stored with its properties and
tags, its record set either agreeing with its snapshot records or making the
upsert loop raise at line 151 deterministically — in which case the record
pass rolls back without touching it.  A completed run leaves the store in
this state, and on such a store a further run writes nothing. -/
def StoreSynced {ι : Type} [DecidableEq ι] (snap : List (SnapZone ι)) (s : Store ι) : Prop :=
  (∀ sz ∈ s.zones, sz.zone_id ∈ snap.map (·.zone_id)) ∧
  (∀ z ∈ snap, ∃ recs, getZone s z.zone_id = some ⟨z.zone_id, zonePropsOf z, z.tags, recs⟩ ∧
     (RecordsSynced z.records recs ∨ recordUpsert recs z.records = .error ()))

/-! ## Browsing view (`DNSZoneRecords.get`, views.py lines 54-72)

The view parses `page` (default 1), `count` (default 25) and an optional
`type` argument, then returns `zone.records[start:end]` with
`start = (page - 1) * count`, `end = start + count`, and
`recordCount = len(zone.records)`.  For `page >= 1` the Python slice is
`take count` after `drop start`.  The parsed `type` argument is part of the
model because the view declares it; the body never reads it. -/

structure ViewRecord where
  name : String
  type : String
deriving DecidableEq, Repr

def dns_zone_records_get (records : List ViewRecord) (page count : Nat)
    (rtypeArg : Option String) : Nat × List ViewRecord :=
  let start_offset := (page - 1) * count
  (records.length, (records.drop start_offset).take count)

/-! ## Concrete inputs used by counterexamples and witnesses -/

/-- Modelled from the spec: the claim in section 4.3 that the record id is
computed "per raw row at merge time from (adapter tag, zone native id, all
field key=value pairs of that raw row)", so that the stored id reflects the
first-seen raw row per name.  This definition follows the spec's words, for
comparison with `cfRecordId`, which is what the source actually computes. -/
def specFirstRawRowId (zobjId : String) (r : RawRecord) : ResourceId :=
  get_resource_id "cfr" [.s zobjId,
    .l [kvString "name" (.str r.name), kvString "content" (.str r.content),
        kvString "type" (.str r.type)]]

def cexRow1 : RawRecord := ⟨"www.example.com", "1.1.1.1", "A"⟩

def cexRow2 : RawRecord := ⟨"www.example.com", "2.2.2.2", "A"⟩

def c2zobj : CFZone := ⟨"023e105f4ecef8ad9ca31a8372d0c353", "example.com"⟩

def c2zlist : List CFZone := [c2zobj]

/-- The merged record the two counterexample rows produce. -/
def c2merged : MergedRecord := ⟨"www.example.com", ["1.1.1.1", "2.2.2.2"], "A"⟩

def c2recordsOf : String → Except Unit (List MergedRecord) :=
  fun _ => .ok (mergeRows [cexRow1, cexRow2])

/-- The single zone of the C6 counterexample snapshot. -/
def c6zone : SnapZone Nat :=
  ⟨0, "example.com", "CloudFlare", none, [],
    [⟨2, 0, "new.example.com", ["2.2.2.2"], "A"⟩]⟩

/-- The single stored zone of the C5 witness: absent from the snapshot. -/
def c5zone : StoredZone Nat :=
  ⟨7, ⟨"gone.example.com", "AXFR", none⟩, [],
   [⟨8, ⟨"x.gone.example.com", ["1.2.3.4"], "A"⟩⟩,
    ⟨9, ⟨"y.gone.example.com", ["5.6.7.8"], "A"⟩⟩]⟩

/-- The store of the C6 counterexample: one zone (id 0) holding one record
(id 1). -/
def c6store : Store Nat :=
  ⟨[⟨0, ⟨"example.com", "CloudFlare", none⟩, [],
     [⟨1, ⟨"old.example.com", ["1.1.1.1"], "A"⟩⟩]⟩]⟩

/-- The snapshot of the C6 counterexample: the same zone, now with a single
different record (id 2). -/
def c6snap : List (SnapZone Nat) := [c6zone]

/-- The fault of the C6 counterexample: zone 0's record pass raises after the
commit of line 168, while deleting the stale records. -/
def c6fault : Nat → RecFault := fun i => if i = 0 then .failDelete else .ok

def c9recs : List ViewRecord :=
  [⟨"www.example.com", "A"⟩, ⟨"txt.example.com", "TXT"⟩]

def c1snap : List (SnapZone Nat) :=
  [⟨0, "example.com", "AXFR", none, [],
    [⟨1, 0, "www.example.com", ["1.1.1.1"], "A"⟩]⟩]

def c3fetch : Nat → CFPage RawRecord :=
  fun _ => ⟨[⟨"www.example.com", "1.1.1.1", "A"⟩, ⟨"www.example.com", "2.2.2.2", "A"⟩], some 1⟩

def c4pA : RecordProps := ⟨"a.example.com", ["1.1.1.1"], "A"⟩

def c4pB : RecordProps := ⟨"b.example.com", ["2.2.2.2"], "A"⟩

def c4pC : RecordProps := ⟨"c.example.com", ["3.3.3.3"], "A"⟩

def c4szone : StoredZone Nat :=
  ⟨0, ⟨"example.com", "AXFR", none⟩, [], [⟨1, c4pA⟩, ⟨2, c4pB⟩, ⟨3, c4pC⟩]⟩

def c4store : Store Nat := ⟨[c4szone]⟩

def c4rB : SnapRecord Nat := ⟨2, 0, "b.example.com", ["2.2.2.2"], "A"⟩

def c4rC : SnapRecord Nat := ⟨3, 0, "c.example.com", ["9.9.9.9"], "A"⟩

def c4rD : SnapRecord Nat := ⟨4, 0, "d.example.com", ["4.4.4.4"], "A"⟩

def c4zone : SnapZone Nat := ⟨0, "example.com", "AXFR", none, [], [c4rB, c4rC, c4rD]⟩

def c4snap : List (SnapZone Nat) := [c4zone]

def c5store : Store Nat := ⟨[c5zone]⟩

def c7fetchZ : Nat → CFPage Nat := fun p => ⟨[p * 10], some 3⟩

def c7fetchR : Nat → CFPage RawRecord :=
  fun p => ⟨[⟨"www.example.com", "10.0.0." ++ toString p, "A"⟩], some 3⟩

def c8domains : List String := ["example.com", "empty.example.com"]

def c8xfr : String → Except Unit (List AxfrRow) :=
  fun d => if d = "example.com" then .ok [⟨"www.example.com.", "www", 300, "1.1.1.1", "A"⟩]
           else .ok []

def c8zlist : List CFZone := [⟨"z1", "example.com"⟩, ⟨"z2", "empty.example.com"⟩]

def c8recordsOf : String → Except Unit (List MergedRecord) :=
  fun zid => if zid = "z1" then .ok [⟨"www.example.com", ["1.1.1.1"], "A"⟩] else .ok []

def c8zs : List (SnapZone ResourceId) :=
  [axfrEmitZone "example.com" [⟨"www.example.com.", "www", 300, "1.1.1.1", "A"⟩]]

def c10fetchZ0 : Nat → CFPage Nat := fun _ => ⟨[], some 0⟩

def c10fetchR0 : Nat → CFPage RawRecord := fun _ => ⟨[], some 0⟩

/-! # Theorems -/

/-! ## The string comparison is a decidable linear order -/

theorem lexLeB_total : ∀ a b, lexLeB a b = true ∨ lexLeB b a = true
  | [], _ => Or.inl rfl
  | _ :: _, [] => Or.inr rfl
  | c :: cs, d :: ds => by
    rcases Nat.lt_trichotomy c.toNat d.toNat with h | h | h
    · left; simp [lexLeB, h]
    · have h1 : ¬ c.toNat < d.toNat := by omega
      have h2 : ¬ d.toNat < c.toNat := by omega
      rcases lexLeB_total cs ds with ih | ih
      · left; simp [lexLeB, h1, h2, ih]
      · right; simp [lexLeB, h1, h2, ih]
    · right; simp [lexLeB, h, Nat.lt_asymm h]

theorem lexLeB_trans : ∀ a b c, lexLeB a b = true → lexLeB b c = true → lexLeB a c = true
  | [], _, _, _, _ => rfl
  | _ :: _, [], _, h, _ => by simp [lexLeB] at h
  | _ :: _, _ :: _, [], _, h => by simp [lexLeB] at h
  | a :: as, b :: bs, c :: cs, h1, h2 => by
    simp only [lexLeB] at h1 h2 ⊢
    split_ifs at h1 h2 ⊢ <;>
      first
      | rfl
      | omega
      | exact lexLeB_trans as bs cs h1 h2

theorem lexLeB_antisymm : ∀ a b, lexLeB a b = true → lexLeB b a = true → a = b
  | [], [], _, _ => rfl
  | [], _ :: _, _, h => by simp [lexLeB] at h
  | _ :: _, [], h, _ => by simp [lexLeB] at h
  | a :: as, b :: bs, h1, h2 => by
    rcases Nat.lt_trichotomy a.toNat b.toNat with h | h | h
    · simp [lexLeB, h, Nat.lt_asymm h] at h2
    · simp only [lexLeB, h, Nat.lt_irrefl, if_false] at h1 h2
      have hab : a = b := Char.eq_of_val_eq (UInt32.ext h)
      rw [hab, lexLeB_antisymm as bs h1 h2]
    · simp [lexLeB, h, Nat.lt_asymm h] at h1

instance : IsTotal String strLe := ⟨fun a b => lexLeB_total a.data b.data⟩

instance : IsTrans String strLe := ⟨fun a b c => lexLeB_trans a.data b.data c.data⟩

instance : IsAntisymm String strLe :=
  ⟨fun a b h1 h2 => by
    cases a; cases b
    exact congrArg String.mk (lexLeB_antisymm _ _ h1 h2)⟩

theorem sortStrings_perm (l : List String) : List.Perm (sortStrings l) l :=
  List.perm_insertionSort _ _

theorem sortStrings_sorted (l : List String) : List.Sorted strLe (sortStrings l) :=
  List.sorted_insertionSort _ _

theorem sortStrings_eq_of_perm {l1 l2 : List String} (h : List.Perm l1 l2) :
    sortStrings l1 = sortStrings l2 :=
  List.eq_of_perm_of_sorted
    ((sortStrings_perm l1).trans (h.trans (sortStrings_perm l2).symm))
    (sortStrings_sorted l1) (sortStrings_sorted l2)

theorem sortStrings_idem (l : List String) : sortStrings (sortStrings l) = sortStrings l :=
  sortStrings_eq_of_perm (sortStrings_perm l)

theorem sortStrings_sort_append (l t : List String) :
    sortStrings (sortStrings l ++ t) = sortStrings (l ++ t) :=
  sortStrings_eq_of_perm ((sortStrings_perm l).append_right t)

/-! ## `updateFirst`, `find?` and `filter` toolkit -/

theorem updateFirst_map {α β : Type} (p : α → Bool) (f : α → α) (g : α → β)
    (h : ∀ x, p x = true → g (f x) = g x) :
    ∀ l, (updateFirst p f l).map g = l.map g
  | [] => rfl
  | x :: xs => by
    by_cases hp : p x = true <;>
      simp [updateFirst, hp, h x, updateFirst_map p f g h xs]

theorem find?_updateFirst_self {α : Type} (p : α → Bool) (f : α → α)
    (h : ∀ x, p x = true → p (f x) = true) :
    ∀ l, (updateFirst p f l).find? p = (l.find? p).map f
  | [] => rfl
  | x :: xs => by
    by_cases hp : p x = true
    · simp [updateFirst, hp, List.find?_cons, h x hp]
    · simp [updateFirst, hp, List.find?_cons, find?_updateFirst_self p f h xs]

theorem find?_updateFirst_other {α : Type} (p q : α → Bool) (f : α → α)
    (hq : ∀ x, q (f x) = q x) (hdisj : ∀ x, q x = true → p x = false) :
    ∀ l, (updateFirst p f l).find? q = l.find? q
  | [] => rfl
  | x :: xs => by
    by_cases hp : p x = true
    · have hqx : q x = false := by
        by_contra hc
        have := hdisj x (by revert hc; cases q x <;> simp)
        simp [this] at hp
      simp [updateFirst, hp, List.find?_cons, hq x, hqx]
    · by_cases hqx : q x = true <;>
        simp [updateFirst, hp, List.find?_cons, hqx,
          find?_updateFirst_other p q f hq hdisj xs]

theorem updateFirst_of_find?_none {α : Type} (p : α → Bool) (f : α → α) :
    ∀ l : List α, l.find? p = none → updateFirst p f l = l
  | [], _ => rfl
  | x :: xs, h => by
    cases hpx : p x with
    | true =>
      simp only [List.find?_cons, hpx] at h
      exact Option.noConfusion h
    | false =>
      simp only [List.find?_cons, hpx] at h
      simp [updateFirst, hpx, updateFirst_of_find?_none p f xs h]

theorem updateFirst_eq_self {α : Type} (p : α → Bool) (f : α → α) :
    ∀ (l : List α) a, l.find? p = some a → f a = a → updateFirst p f l = l
  | [], a, h, _ => by simp at h
  | x :: xs, a, h, hfa => by
    cases hpx : p x with
    | true =>
      simp only [List.find?_cons, hpx] at h
      have hxa : x = a := Option.some_inj.mp h
      subst hxa
      simp [updateFirst, hpx, hfa]
    | false =>
      simp only [List.find?_cons, hpx] at h
      simp [updateFirst, hpx, updateFirst_eq_self p f xs a h hfa]

theorem find?_filter_keep {α : Type} (q keep : α → Bool)
    (h : ∀ x, q x = true → keep x = true) :
    ∀ l : List α, (l.filter keep).find? q = l.find? q
  | [] => rfl
  | x :: xs => by
    by_cases hk : keep x = true
    · by_cases hqx : q x = true <;>
        simp [List.filter_cons, hk, List.find?_cons, hqx, find?_filter_keep q keep h xs]
    · have hqx : q x = false := by
        by_contra hc
        have := h x (by revert hc; cases q x <;> simp)
        simp [this] at hk
      simp [List.filter_cons, hk, List.find?_cons, hqx, find?_filter_keep q keep h xs]

theorem find?_filter_gone {α : Type} (q keep : α → Bool)
    (h : ∀ x, q x = true → keep x = false) (l : List α) :
    (l.filter keep).find? q = none := by
  rw [List.find?_eq_none]
  intro x hx
  rcases List.mem_filter.mp hx with ⟨_, hk⟩
  intro hq
  rw [h x hq] at hk
  exact Bool.false_ne_true hk

theorem map_filter_comm {α β : Type} (g : α → β) (p : β → Bool) :
    ∀ l : List α, (l.filter (fun x => p (g x))).map g = (l.map g).filter p
  | [] => rfl
  | x :: xs => by
    by_cases h : p (g x) = true <;>
      simp [List.filter_cons, h, map_filter_comm g p xs]

theorem find?_key_self {α κ : Type} [DecidableEq κ] (key : α → κ) :
    ∀ {l : List α}, ((l.map key).Nodup) → ∀ {x}, x ∈ l →
      l.find? (fun y => decide (key y = key x)) = some x
  | [], _, x, hx => by simp at hx
  | a :: t, hnd, x, hx => by
    rcases List.mem_cons.mp hx with rfl | hxt
    · simp [List.find?_cons]
    · have hne : key a ≠ key x := by
        intro he
        have : key x ∈ t.map key := List.mem_map.mpr ⟨x, hxt, rfl⟩
        rw [← he] at this
        exact (List.nodup_cons.mp hnd).1 this
      have ht : (t.map key).Nodup := (List.nodup_cons.mp hnd).2
      simp [List.find?_cons, hne, find?_key_self key ht hxt]

/-! ## The per-zone record merge -/

theorem any_eq_find?_isSome {α : Type} (p : α → Bool) :
    ∀ l : List α, l.any p = (l.find? p).isSome
  | [] => rfl
  | x :: xs => by
    cases hp : p x <;>
      simp [List.any_cons, List.find?_cons, hp, any_eq_find?_isSome p xs]

/-- The in-place value-append of source line 351. -/
def mergeAppend (c : String) (m : MergedRecord) : MergedRecord :=
  { m with value := sortStrings (m.value ++ [c]) }

theorem mergeStep_eq (recs : List MergedRecord) (r : RawRecord) :
    mergeStep recs r =
      if recs.any (fun m => decide (m.name = r.name)) then
        updateFirst (fun m => decide (m.name = r.name)) (mergeAppend r.content) recs
      else recs ++ [⟨r.name, sortStrings [r.content], r.type⟩] := rfl

theorem find?_updateFirst_keq {α κ : Type} [DecidableEq κ] (key : α → κ) (f : α → α)
    (hf : ∀ x, key (f x) = key x) (k : κ) (l : List α) :
    (updateFirst (fun y => decide (key y = k)) f l).find? (fun y => decide (key y = k)) =
      (l.find? (fun y => decide (key y = k))).map f :=
  find?_updateFirst_self _ f
    (fun x hx => by
      rw [decide_eq_true_eq] at hx ⊢
      rw [hf x]
      exact hx) l

theorem find?_updateFirst_kne {α κ : Type} [DecidableEq κ] (key : α → κ) (f : α → α)
    (hf : ∀ x, key (f x) = key x) (k j : κ) (hne : j ≠ k) (l : List α) :
    (updateFirst (fun y => decide (key y = k)) f l).find? (fun y => decide (key y = j)) =
      l.find? (fun y => decide (key y = j)) :=
  find?_updateFirst_other _ _ f
    (fun x => by rw [hf x])
    (fun x hx => by
      rw [decide_eq_true_eq] at hx
      rw [decide_eq_false_iff_not, hx]
      exact hne) l

theorem updateFirst_map_key {α κ : Type} [DecidableEq κ] (key : α → κ) (f : α → α)
    (hf : ∀ x, key (f x) = key x) (k : κ) (l : List α) :
    (updateFirst (fun y => decide (key y = k)) f l).map key = l.map key :=
  updateFirst_map _ f key (fun x _ => hf x) l

theorem lookupName_mergeStep_other (acc : List MergedRecord) (r : RawRecord) (n : String)
    (h : r.name ≠ n) : lookupName (mergeStep acc r) n = lookupName acc n := by
  rw [mergeStep_eq]
  by_cases ha : acc.any (fun m => decide (m.name = r.name)) = true
  · rw [if_pos ha]
    exact find?_updateFirst_kne (fun m => (m : MergedRecord).name) (mergeAppend r.content)
      (fun x => rfl) r.name n (fun he => h he.symm) acc
  · rw [if_neg ha]
    unfold lookupName
    rw [List.find?_append]
    cases hf : acc.find? (fun m => decide (m.name = n)) with
    | some m => rfl
    | none =>
      simp [List.find?_cons, h]

theorem lookupName_foldl_some :
    ∀ (rows : List RawRecord) (acc : List MergedRecord) (m : MergedRecord) (n : String),
      lookupName acc n = some m → sortStrings m.value = m.value →
      lookupName (rows.foldl mergeStep acc) n =
        some ⟨m.name,
          sortStrings (m.value ++ (rows.filter (fun r => decide (r.name = n))).map
            (fun r => r.content)),
          m.type⟩
  | [], acc, m, n, hm, hs => by
    simp only [List.foldl_nil, List.filter_nil, List.map_nil, List.append_nil, hs]
    rw [hm]
  | r :: rest, acc, m, n, hm, hs => by
    rw [List.foldl_cons]
    by_cases hr : r.name = n
    · subst hr
      have hany : acc.any (fun x => decide (x.name = r.name)) = true := by
        rw [any_eq_find?_isSome]
        unfold lookupName at hm
        rw [hm]
        rfl
      have hstep : lookupName (mergeStep acc r) r.name =
          some ⟨m.name, sortStrings (m.value ++ [r.content]), m.type⟩ := by
        rw [mergeStep_eq, if_pos hany]
        unfold lookupName
        rw [find?_updateFirst_keq (fun x => (x : MergedRecord).name) (mergeAppend r.content)
          (fun x => rfl) r.name acc]
        unfold lookupName at hm
        rw [hm]
        rfl
      have hrec := lookupName_foldl_some rest (mergeStep acc r)
        ⟨m.name, sortStrings (m.value ++ [r.content]), m.type⟩ r.name hstep
        (sortStrings_idem _)
      rw [hrec]
      have hfil : (r :: rest).filter (fun x => decide (x.name = r.name)) =
          r :: rest.filter (fun x => decide (x.name = r.name)) := by
        simp [List.filter_cons]
      rw [hfil]
      simp only [List.map_cons]
      rw [sortStrings_sort_append, List.append_assoc]
      rfl
    · have hstep := lookupName_mergeStep_other acc r n hr
      have hrec := lookupName_foldl_some rest (mergeStep acc r) m n (hstep.trans hm) hs
      rw [hrec]
      have hfil : (r :: rest).filter (fun x => decide (x.name = n)) =
          rest.filter (fun x => decide (x.name = n)) := by
        simp [List.filter_cons, hr]
      rw [hfil]

theorem lookupName_foldl_none :
    ∀ (rows : List RawRecord) (acc : List MergedRecord) (n : String),
      lookupName acc n = none →
      lookupName (rows.foldl mergeStep acc) n =
        match rows.filter (fun r => decide (r.name = n)) with
        | [] => none
        | r :: rs => some ⟨n, sortStrings ((r :: rs).map (fun x => x.content)), r.type⟩
  | [], acc, n, hn => by
    simp only [List.foldl_nil, List.filter_nil]
    exact hn
  | r :: rest, acc, n, hn => by
    rw [List.foldl_cons]
    by_cases hr : r.name = n
    · subst hr
      have hany : acc.any (fun x => decide (x.name = r.name)) = false := by
        rw [any_eq_find?_isSome]
        unfold lookupName at hn
        rw [hn]
        rfl
      have hstep : lookupName (mergeStep acc r) r.name =
          some ⟨r.name, sortStrings [r.content], r.type⟩ := by
        rw [mergeStep_eq, if_neg (by rw [hany]; exact Bool.false_ne_true)]
        unfold lookupName
        rw [List.find?_append]
        unfold lookupName at hn
        rw [hn]
        simp [List.find?_cons]
      have hrec := lookupName_foldl_some rest (mergeStep acc r)
        ⟨r.name, sortStrings [r.content], r.type⟩ r.name hstep (sortStrings_idem _)
      rw [hrec]
      have hfil : (r :: rest).filter (fun x => decide (x.name = r.name)) =
          r :: rest.filter (fun x => decide (x.name = r.name)) := by
        simp [List.filter_cons]
      rw [hfil]
      simp only [List.map_cons]
      rw [sortStrings_sort_append]
      rfl
    · have hstep := lookupName_mergeStep_other acc r n hr
      have hrec := lookupName_foldl_none rest (mergeStep acc r) n (hstep.trans hn)
      rw [hrec]
      have hfil : (r :: rest).filter (fun x => decide (x.name = n)) =
          rest.filter (fun x => decide (x.name = n)) := by
        simp [List.filter_cons, hr]
      rw [hfil]

theorem lookupName_mergeRows (rows : List RawRecord) (n : String) :
    lookupName (mergeRows rows) n =
      match rows.filter (fun r => decide (r.name = n)) with
      | [] => none
      | r :: rs => some ⟨n, sortStrings ((r :: rs).map (fun x => x.content)), r.type⟩ :=
  lookupName_foldl_none rows [] n rfl

theorem names_foldl_mergeStep :
    ∀ (rows : List RawRecord) (acc : List MergedRecord),
      ((acc.map (fun m => m.name)).Nodup) →
      (((rows.foldl mergeStep acc).map (fun m => m.name)).Nodup)
  | [], _, h => h
  | r :: rest, acc, h => by
    rw [List.foldl_cons]
    apply names_foldl_mergeStep rest
    rw [mergeStep_eq]
    by_cases ha : acc.any (fun m => decide (m.name = r.name)) = true
    · rw [if_pos ha]
      rw [updateFirst_map_key (fun m => (m : MergedRecord).name) (mergeAppend r.content)
        (fun x => rfl) r.name acc]
      exact h
    · rw [if_neg ha]
      have hnotin : r.name ∉ acc.map (fun m => m.name) := by
        intro hmem
        rcases List.mem_map.mp hmem with ⟨m, hmmem, hname⟩
        have : acc.any (fun m => decide (m.name = r.name)) = true :=
          List.any_eq_true.mpr ⟨m, hmmem, by simp [hname]⟩
        exact ha this
      simp [List.nodup_append, h, hnotin]

theorem mergeRows_names_nodup (rows : List RawRecord) :
    ((mergeRows rows).map (fun m => m.name)).Nodup :=
  names_foldl_mergeStep rows [] List.nodup_nil

theorem mem_mergeRows_eq (rows : List RawRecord) (m : MergedRecord)
    (hm : m ∈ mergeRows rows) :
    ∃ r rs, rows.filter (fun x => decide (x.name = m.name)) = r :: rs ∧
      m.value = sortStrings ((r :: rs).map (fun x => x.content)) ∧ m.type = r.type := by
  have hself : lookupName (mergeRows rows) m.name = some m := by
    show (mergeRows rows).find? (fun y => decide (y.name = m.name)) = some m
    exact find?_key_self (fun x => x.name) (mergeRows_names_nodup rows) hm
  rw [lookupName_mergeRows] at hself
  cases hfil : rows.filter (fun x => decide (x.name = m.name)) with
  | nil =>
    rw [hfil] at hself
    exact Option.noConfusion hself
  | cons r rs =>
    rw [hfil] at hself
    simp only [Option.some_inj] at hself
    refine ⟨r, rs, rfl, ?_, ?_⟩
    · rw [← hself]
    · rw [← hself]

/-! ## Pagination -/

theorem pageDone_iff (info : Option Nat) (page : Nat) :
    pageDone info page = true ↔ info = none ∨ info = some page := by
  cases info with
  | none => simp [pageDone]
  | some t =>
    simp only [pageDone, beq_iff_eq]
    constructor
    · intro h
      exact Or.inr (by rw [h])
    · rintro (h | h)
      · exact Option.noConfusion h
      · exact (Option.some_inj.mp h).symm

theorem cfListZonesLoop_result {α : Type} (fetch : Nat → CFPage α) :
    ∀ (fuel page : Nat) (ps : List Nat) (out : List α),
      cfListZonesLoop fetch fuel page = some (ps, out) →
      out = (ps.map (fun p => (fetch p).result)).flatten
  | 0, page, ps, out, h => by simp [cfListZonesLoop] at h
  | fuel + 1, page, ps, out, h => by
    simp only [cfListZonesLoop] at h
    cases hd : pageDone (fetch page).total_pages page with
    | true =>
      rw [hd] at h
      simp only [if_true] at h
      rcases Prod.mk.injEq .. ▸ Option.some_inj.mp h with ⟨hps, hout⟩
      subst hps
      simp [← hout]
    | false =>
      rw [hd] at h
      simp only [Bool.false_eq_true, if_false] at h
      cases hr : cfListZonesLoop fetch fuel (page + 1) with
      | none => rw [hr] at h; exact Option.noConfusion h
      | some pr =>
        obtain ⟨ps0, out0⟩ := pr
        rw [hr] at h
        rcases Prod.mk.injEq .. ▸ Option.some_inj.mp h with ⟨hps, hout⟩
        subst hps
        have := cfListZonesLoop_result fetch fuel (page + 1) ps0 out0 hr
        simp [← hout, this]

theorem cfListRecordsLoop_result (fetch : Nat → CFPage RawRecord) :
    ∀ (fuel page : Nat) (recs : List MergedRecord) (ps : List Nat) (out : List MergedRecord),
      cfListRecordsLoop fetch fuel page recs = some (ps, out) →
      out = ((ps.map (fun p => (fetch p).result)).flatten).foldl mergeStep recs
  | 0, page, recs, ps, out, h => by simp [cfListRecordsLoop] at h
  | fuel + 1, page, recs, ps, out, h => by
    simp only [cfListRecordsLoop] at h
    cases hd : pageDone (fetch page).total_pages page with
    | true =>
      rw [hd] at h
      simp only [if_true] at h
      rcases Prod.mk.injEq .. ▸ Option.some_inj.mp h with ⟨hps, hout⟩
      subst hps
      simp [← hout]
    | false =>
      rw [hd] at h
      simp only [Bool.false_eq_true, if_false] at h
      cases hr : cfListRecordsLoop fetch fuel (page + 1) ((fetch page).result.foldl mergeStep recs) with
      | none => rw [hr] at h; exact Option.noConfusion h
      | some pr =>
        obtain ⟨ps0, out0⟩ := pr
        rw [hr] at h
        rcases Prod.mk.injEq .. ▸ Option.some_inj.mp h with ⟨hps, hout⟩
        subst hps
        have := cfListRecordsLoop_result fetch fuel (page + 1)
          ((fetch page).result.foldl mergeStep recs) ps0 out0 hr
        simp only [← hout, this, List.map_cons, List.flatten_cons, List.foldl_append]

theorem cfListZonesLoop_isSome_done {α : Type} (fetch : Nat → CFPage α) :
    ∀ (fuel page : Nat), (cfListZonesLoop fetch fuel page).isSome = true →
      ∃ N, page ≤ N ∧ pageDone (fetch N).total_pages N = true
  | 0, page, h => by simp [cfListZonesLoop] at h
  | fuel + 1, page, h => by
    simp only [cfListZonesLoop] at h
    cases hd : pageDone (fetch page).total_pages page with
    | true => exact ⟨page, Nat.le_refl page, hd⟩
    | false =>
      rw [hd] at h
      simp only [Bool.false_eq_true, if_false] at h
      cases hr : cfListZonesLoop fetch fuel (page + 1) with
      | none => rw [hr] at h; simp at h
      | some pr =>
        rcases cfListZonesLoop_isSome_done fetch fuel (page + 1) (by rw [hr]; rfl)
          with ⟨N, hN1, hN2⟩
        exact ⟨N, by omega, hN2⟩

theorem cfListRecordsLoop_isSome_done (fetch : Nat → CFPage RawRecord) :
    ∀ (fuel page : Nat) (recs : List MergedRecord),
      (cfListRecordsLoop fetch fuel page recs).isSome = true →
      ∃ N, page ≤ N ∧ pageDone (fetch N).total_pages N = true
  | 0, page, recs, h => by simp [cfListRecordsLoop] at h
  | fuel + 1, page, recs, h => by
    simp only [cfListRecordsLoop] at h
    cases hd : pageDone (fetch page).total_pages page with
    | true => exact ⟨page, Nat.le_refl page, hd⟩
    | false =>
      rw [hd] at h
      simp only [Bool.false_eq_true, if_false] at h
      cases hr : cfListRecordsLoop fetch fuel (page + 1) ((fetch page).result.foldl mergeStep recs) with
      | none => rw [hr] at h; simp at h
      | some pr =>
        rcases cfListRecordsLoop_isSome_done fetch fuel (page + 1)
          ((fetch page).result.foldl mergeStep recs) (by rw [hr]; rfl) with ⟨N, hN1, hN2⟩
        exact ⟨N, by omega, hN2⟩

theorem cfListZonesLoop_step {α : Type} (fetch : Nat → CFPage α) (fuel page : Nat)
    (h : pageDone (fetch page).total_pages page = false) :
    cfListZonesLoop fetch (fuel + 1) page =
      match cfListZonesLoop fetch fuel (page + 1) with
      | none => none
      | some pr => some (page :: pr.1, (fetch page).result ++ pr.2) := by
  simp only [cfListZonesLoop, h, Bool.false_eq_true, if_false]
  cases cfListZonesLoop fetch fuel (page + 1) with
  | none => rfl
  | some pr => rfl

theorem cfListRecordsLoop_step (fetch : Nat → CFPage RawRecord) (fuel page : Nat)
    (recs : List MergedRecord)
    (h : pageDone (fetch page).total_pages page = false) :
    cfListRecordsLoop fetch (fuel + 1) page recs =
      match cfListRecordsLoop fetch fuel (page + 1) ((fetch page).result.foldl mergeStep recs) with
      | none => none
      | some pr => some (page :: pr.1, pr.2) := by
  simp only [cfListRecordsLoop, h, Bool.false_eq_true, if_false]
  cases cfListRecordsLoop fetch fuel (page + 1) (List.foldl mergeStep recs (fetch page).result) with
  | none => rfl
  | some pr => rfl

theorem cfListZonesLoop_some_of_done {α : Type} (fetch : Nat → CFPage α) :
    ∀ (k page : Nat), pageDone (fetch (page + k)).total_pages (page + k) = true →
      (∀ M, page ≤ M → M < page + k → pageDone (fetch M).total_pages M = false) →
      (cfListZonesLoop fetch (k + 1) page).isSome = true
  | 0, page, hdone, _ => by
    rw [Nat.add_zero] at hdone
    simp [cfListZonesLoop, hdone]
  | k + 1, page, hdone, hmin => by
    have hp : pageDone (fetch page).total_pages page = false :=
      hmin page (Nat.le_refl page) (by omega)
    have hrec := cfListZonesLoop_some_of_done fetch k (page + 1)
      (by rw [show page + 1 + k = page + (k + 1) from by omega]; exact hdone)
      (fun M h1 h2 => hmin M (by omega) (by omega))
    rw [cfListZonesLoop_step fetch (k + 1) page hp]
    cases hr : cfListZonesLoop fetch (k + 1) (page + 1) with
    | none => rw [hr] at hrec; simp at hrec
    | some pr => rfl

theorem cfListRecordsLoop_some_of_done (fetch : Nat → CFPage RawRecord) :
    ∀ (k page : Nat) (recs : List MergedRecord),
      pageDone (fetch (page + k)).total_pages (page + k) = true →
      (∀ M, page ≤ M → M < page + k → pageDone (fetch M).total_pages M = false) →
      (cfListRecordsLoop fetch (k + 1) page recs).isSome = true
  | 0, page, recs, hdone, _ => by
    rw [Nat.add_zero] at hdone
    simp [cfListRecordsLoop, hdone]
  | k + 1, page, recs, hdone, hmin => by
    have hp : pageDone (fetch page).total_pages page = false :=
      hmin page (Nat.le_refl page) (by omega)
    have hrec := cfListRecordsLoop_some_of_done fetch k (page + 1)
      ((fetch page).result.foldl mergeStep recs)
      (by rw [show page + 1 + k = page + (k + 1) from by omega]; exact hdone)
      (fun M h1 h2 => hmin M (by omega) (by omega))
    rw [cfListRecordsLoop_step fetch (k + 1) page recs hp]
    cases hr : cfListRecordsLoop fetch (k + 1) (page + 1) ((fetch page).result.foldl mergeStep recs) with
    | none => rw [hr] at hrec; simp at hrec
    | some pr => rfl

theorem zones_terminates_iff {α : Type} (fetch : Nat → CFPage α) :
    (∃ fuel, (cloudflare_list_zones fetch fuel).isSome = true) ↔
    (∃ N, 1 ≤ N ∧ ((fetch N).total_pages = none ∨ (fetch N).total_pages = some N)) := by
  constructor
  · rintro ⟨fuel, h⟩
    rcases cfListZonesLoop_isSome_done fetch fuel 1 h with ⟨N, hN1, hN2⟩
    exact ⟨N, hN1, (pageDone_iff _ _).mp hN2⟩
  · rintro ⟨N, hN1, hN2⟩
    have hex : ∃ k, pageDone (fetch (k + 1)).total_pages (k + 1) = true :=
      ⟨N - 1, by rw [show N - 1 + 1 = N from by omega]; exact (pageDone_iff _ _).mpr hN2⟩
    classical
    let k0 := Nat.find hex
    refine ⟨k0 + 1, cfListZonesLoop_some_of_done fetch k0 1 ?_ ?_⟩
    · rw [show 1 + k0 = k0 + 1 from by omega]
      exact Nat.find_spec hex
    · intro M h1 h2
      have hlt : M - 1 < k0 := by omega
      have := Nat.find_min hex hlt
      rw [show M - 1 + 1 = M from by omega] at this
      cases hval : pageDone (fetch M).total_pages M with
      | false => rfl
      | true => exact absurd hval this

theorem records_terminates_iff (fetch : Nat → CFPage RawRecord) :
    (∃ fuel, (cloudflare_list_zone_records fetch fuel).isSome = true) ↔
    (∃ N, 1 ≤ N ∧ ((fetch N).total_pages = none ∨ (fetch N).total_pages = some N)) := by
  constructor
  · rintro ⟨fuel, h⟩
    rcases cfListRecordsLoop_isSome_done fetch fuel 1 [] h with ⟨N, hN1, hN2⟩
    exact ⟨N, hN1, (pageDone_iff _ _).mp hN2⟩
  · rintro ⟨N, hN1, hN2⟩
    have hex : ∃ k, pageDone (fetch (k + 1)).total_pages (k + 1) = true :=
      ⟨N - 1, by rw [show N - 1 + 1 = N from by omega]; exact (pageDone_iff _ _).mpr hN2⟩
    classical
    let k0 := Nat.find hex
    refine ⟨k0 + 1, cfListRecordsLoop_some_of_done fetch k0 1 [] ?_ ?_⟩
    · rw [show 1 + k0 = k0 + 1 from by omega]
      exact Nat.find_spec hex
    · intro M h1 h2
      have hlt : M - 1 < k0 := by omega
      have := Nat.find_min hex hlt
      rw [show M - 1 + 1 = M from by omega] at this
      cases hval : pageDone (fetch M).total_pages M with
      | false => rfl
      | true => exact absurd hval this

/-! ## The adapters -/

theorem mem_cfFold (recordsOf : String → Except Unit (List MergedRecord)) :
    ∀ (zlist : List CFZone) (acc : List (SnapZone ResourceId)) (z : SnapZone ResourceId),
      z ∈ zlist.foldl (cfZoneStep recordsOf) acc →
      z ∈ acc ∨ ∃ zobj ∈ zlist, ∃ mrs, recordsOf zobj.id = .ok mrs ∧
        z = cfEmitZone zobj mrs ∧ z.records ≠ []
  | [], acc, z, hz => Or.inl hz
  | zobj :: rest, acc, z, hz => by
    rw [List.foldl_cons] at hz
    have step : cfZoneStep recordsOf acc zobj = acc ∨
        ∃ mrs, recordsOf zobj.id = .ok mrs ∧
          cfZoneStep recordsOf acc zobj = acc ++ [cfEmitZone zobj mrs] ∧
          (cfEmitZone zobj mrs).records ≠ [] := by
      unfold cfZoneStep
      cases hro : recordsOf zobj.id with
      | error e => exact Or.inl rfl
      | ok mrs =>
        by_cases hlen : (cfEmitZone zobj mrs).records.length > 0
        · refine Or.inr ⟨mrs, rfl, ?_, ?_⟩
          · simp [hlen]
          · intro hnil
            rw [hnil] at hlen
            simp at hlen
        · exact Or.inl (by simp [hlen])
    rcases step with heq | ⟨mrs, hro, heq, hne⟩
    · rw [heq] at hz
      rcases mem_cfFold recordsOf rest acc z hz with h | ⟨w, hw, h2⟩
      · exact Or.inl h
      · exact Or.inr ⟨w, List.mem_cons_of_mem _ hw, h2⟩
    · rw [heq] at hz
      rcases mem_cfFold recordsOf rest (acc ++ [cfEmitZone zobj mrs]) z hz with h | ⟨w, hw, h2⟩
      · rcases List.mem_append.mp h with h | h
        · exact Or.inl h
        · have hzz : z = cfEmitZone zobj mrs := by
            rcases List.mem_singleton.mp h with rfl
            rfl
          exact Or.inr ⟨zobj, List.mem_cons_self _ _, mrs, hro, hzz, hzz ▸ hne⟩
      · exact Or.inr ⟨w, List.mem_cons_of_mem _ hw, h2⟩

theorem mem_get_cloudflare_records (zlist : List CFZone)
    (recordsOf : String → Except Unit (List MergedRecord)) (z : SnapZone ResourceId)
    (hz : z ∈ get_cloudflare_records zlist recordsOf) :
    ∃ zobj ∈ zlist, ∃ mrs, recordsOf zobj.id = .ok mrs ∧
      z = cfEmitZone zobj mrs ∧ z.records ≠ [] := by
  rcases mem_cfFold recordsOf zlist [] z hz with h | h
  · exact absurd h (List.not_mem_nil z)
  · exact h

theorem get_axfr_records_nonempty :
    ∀ (domains : List String) (xfr : String → Except Unit (List AxfrRow))
      (zs : List (SnapZone ResourceId)),
      get_axfr_records domains xfr = .ok zs → ∀ z ∈ zs, z.records ≠ []
  | [], _, zs, h, z, hz => by
    simp only [get_axfr_records] at h
    cases h
    exact absurd hz (List.not_mem_nil z)
  | d :: ds, xfr, zs, h, z, hz => by
    simp only [get_axfr_records] at h
    cases hx : xfr d with
    | error e => rw [hx] at h; exact Except.noConfusion h
    | ok rows =>
      rw [hx] at h
      cases hrest : get_axfr_records ds xfr with
      | error e => rw [hrest] at h; exact Except.noConfusion h
      | ok rest =>
        rw [hrest] at h
        have hzs := Except.ok.inj h
        by_cases hlen : (axfrEmitZone d rows).records.length > 0
        · rw [if_pos hlen] at hzs
          subst hzs
          rcases List.mem_cons.mp hz with rfl | hmem
          · intro hnil
            rw [hnil] at hlen
            simp at hlen
          · exact get_axfr_records_nonempty ds xfr rest hrest z hmem
        · rw [if_neg hlen] at hzs
          subst hzs
          exact get_axfr_records_nonempty ds xfr rest hrest z hz

/-! ## The reconciliation engine: store basics -/

theorem getZone_some_id {ι : Type} [DecidableEq ι] {s : Store ι} {i : ι} {sz : StoredZone ι}
    (h : getZone s i = some sz) : sz.zone_id = i := by
  have := List.find?_some h
  simpa using this

theorem getZone_some_mem {ι : Type} [DecidableEq ι] {s : Store ι} {i : ι} {sz : StoredZone ι}
    (h : getZone s i = some sz) : sz ∈ s.zones :=
  List.mem_of_find?_eq_some h

theorem mem_ids_iff_getZone {ι : Type} [DecidableEq ι] (s : Store ι) (i : ι) :
    i ∈ s.zones.map (fun w => w.zone_id) ↔ ∃ sz, getZone s i = some sz := by
  constructor
  · intro h
    rcases List.mem_map.mp h with ⟨w, hw, hid⟩
    have : ((s.zones.find? (fun z => decide (z.zone_id = i))).isSome = true) :=
      List.find?_isSome.mpr ⟨w, hw, by simp [hid]⟩
    exact Option.isSome_iff_exists.mp this
  · rintro ⟨sz, hsz⟩
    exact List.mem_map.mpr ⟨sz, getZone_some_mem hsz, getZone_some_id hsz⟩

theorem getZone_not_mem {ι : Type} [DecidableEq ι] (s : Store ι) (i : ι)
    (h : i ∉ s.zones.map (fun w => w.zone_id)) : getZone s i = none := by
  cases hg : getZone s i with
  | none => rfl
  | some sz => exact absurd ((mem_ids_iff_getZone s i).mpr ⟨sz, hg⟩) h

theorem find?_append_miss {α : Type} (l : List α) (e : α) (q : α → Bool)
    (he : q e = false) : (l ++ [e]).find? q = l.find? q := by
  rw [List.find?_append]
  cases h : l.find? q with
  | some a => rfl
  | none => simp [List.find?_cons, he]

/-! ## Zone upsert phase -/

theorem zUpsertStep_other {ι : Type} [DecidableEq ι] (origIds : List ι)
    (acc : Store ι × List (WriteOp ι)) (z : SnapZone ι) (i : ι) (hne : z.zone_id ≠ i) :
    getZone (zUpsertStep origIds acc z).1 i = getZone acc.1 i := by
  unfold zUpsertStep
  by_cases hmem : z.zone_id ∈ origIds
  · rw [if_pos hmem]
    cases hg : getZone acc.1 z.zone_id with
    | none => rfl
    | some sz =>
      exact find?_updateFirst_kne (fun w => (w : StoredZone ι).zone_id)
        (fun w => { w with props := zonePropsOf z, tags := z.tags })
        (fun x => rfl) z.zone_id i (fun he => hne he.symm) acc.1.zones
  · rw [if_neg hmem]
    exact find?_append_miss acc.1.zones _ _ (by simp [hne])

theorem zUpsertFold_other {ι : Type} [DecidableEq ι] (origIds : List ι) (i : ι) :
    ∀ (snap : List (SnapZone ι)) (acc : Store ι × List (WriteOp ι)),
      (∀ z ∈ snap, z.zone_id ≠ i) →
      getZone (snap.foldl (zUpsertStep origIds) acc).1 i = getZone acc.1 i
  | [], acc, _ => rfl
  | z :: t, acc, h => by
    rw [List.foldl_cons]
    rw [zUpsertFold_other origIds i t (zUpsertStep origIds acc z)
      (fun w hw => h w (List.mem_cons_of_mem z hw))]
    exact zUpsertStep_other origIds acc z i (h z (List.mem_cons_self z t))

theorem zUpsertFold_ids {ι : Type} [DecidableEq ι] (origIds : List ι) :
    ∀ (snap : List (SnapZone ι)) (acc : Store ι × List (WriteOp ι)),
      (snap.foldl (zUpsertStep origIds) acc).1.zones.map (fun w => w.zone_id) =
        acc.1.zones.map (fun w => w.zone_id) ++
          (snap.filter (fun z => decide (z.zone_id ∉ origIds))).map (fun z => z.zone_id)
  | [], acc => by simp
  | z :: t, acc => by
    rw [List.foldl_cons, zUpsertFold_ids origIds t (zUpsertStep origIds acc z)]
    by_cases hmem : z.zone_id ∈ origIds
    · have hstep : (zUpsertStep origIds acc z).1.zones.map (fun w => w.zone_id) =
          acc.1.zones.map (fun w => w.zone_id) := by
        unfold zUpsertStep
        rw [if_pos hmem]
        cases hg : getZone acc.1 z.zone_id with
        | none => rfl
        | some sz =>
          exact updateFirst_map_key (fun w => (w : StoredZone ι).zone_id)
            (fun w => { w with props := zonePropsOf z, tags := z.tags })
            (fun x => rfl) z.zone_id acc.1.zones
      rw [hstep, List.filter_cons, if_neg (by simp [hmem])]
    · have hstep : (zUpsertStep origIds acc z).1.zones.map (fun w => w.zone_id) =
          acc.1.zones.map (fun w => w.zone_id) ++ [z.zone_id] := by
        unfold zUpsertStep
        rw [if_neg hmem]
        simp
      rw [hstep, List.filter_cons, if_pos (by simp [hmem])]
      simp

theorem zUpsertFold_self {ι : Type} [DecidableEq ι] (s : Store ι) :
    ∀ (snap : List (SnapZone ι)),
      ((snap.map (fun z => z.zone_id)).Nodup) →
      ∀ z ∈ snap, ∀ (acc : Store ι × List (WriteOp ι)),
        getZone acc.1 z.zone_id = getZone s z.zone_id →
        getZone (snap.foldl (zUpsertStep (s.zones.map (fun w => w.zone_id))) acc).1 z.zone_id =
          some ⟨z.zone_id, zonePropsOf z, z.tags,
            match getZone s z.zone_id with
            | some sz => sz.records
            | none => []⟩
  | [], _, z, hz, _, _ => absurd hz (List.not_mem_nil z)
  | w :: t, hnd, z, hz, acc, hacc => by
    rw [List.foldl_cons]
    rcases List.mem_cons.mp hz with rfl | hzt
    · have hnotin : ∀ u ∈ t, u.zone_id ≠ z.zone_id := by
        intro u hu he
        have : z.zone_id ∈ t.map (fun x => x.zone_id) := List.mem_map.mpr ⟨u, hu, he⟩
        exact (List.nodup_cons.mp hnd).1 this
      rw [zUpsertFold_other _ z.zone_id t _ hnotin]
      unfold zUpsertStep
      by_cases hmem : z.zone_id ∈ s.zones.map (fun w => w.zone_id)
      · rcases (mem_ids_iff_getZone s z.zone_id).mp hmem with ⟨sz0, hsz0⟩
        rw [if_pos hmem, hacc, hsz0]
        have hupd : getZone (⟨updateFirst (fun u => decide (u.zone_id = z.zone_id))
            (fun u => { u with props := zonePropsOf z, tags := z.tags }) acc.1.zones⟩ : Store ι)
            z.zone_id =
            (getZone acc.1 z.zone_id).map
              (fun u => { u with props := zonePropsOf z, tags := z.tags }) :=
          find?_updateFirst_keq (fun u => (u : StoredZone ι).zone_id)
            (fun u => { u with props := zonePropsOf z, tags := z.tags })
            (fun x => rfl) z.zone_id acc.1.zones
        show getZone (⟨updateFirst _ _ acc.1.zones⟩ : Store ι) z.zone_id = _
        rw [hupd, hacc, hsz0]
        simp [getZone_some_id hsz0]
      · have hnone : getZone s z.zone_id = none := getZone_not_mem s z.zone_id hmem
        rw [if_neg hmem, hnone]
        show getZone (⟨acc.1.zones ++ [⟨z.zone_id, zonePropsOf z, z.tags, []⟩]⟩ : Store ι)
          z.zone_id = _
        unfold getZone
        rw [List.find?_append]
        have hfn : acc.1.zones.find? (fun u => decide (u.zone_id = z.zone_id)) = none :=
          hacc.trans hnone
        rw [hfn]
        simp [List.find?_cons]
    · have hne : w.zone_id ≠ z.zone_id := by
        intro he
        have hmemz : z.zone_id ∈ t.map (fun x => x.zone_id) :=
          List.mem_map.mpr ⟨z, hzt, rfl⟩
        rw [← he] at hmemz
        exact (List.nodup_cons.mp hnd).1 hmemz
      exact zUpsertFold_self s t (List.nodup_cons.mp hnd).2 z hzt _
        ((zUpsertStep_other _ acc w z.zone_id hne).trans hacc)

/-! ## Zone delete phase -/

theorem zoneDelete_getZone_kept {ι : Type} [DecidableEq ι] (origZones : List (StoredZone ι))
    (snapIds : List ι) (s : Store ι) (i : ι) (hin : i ∈ snapIds) :
    getZone (zoneDeletePhase origZones snapIds s).1 i = getZone s i := by
  unfold zoneDeletePhase getZone
  exact find?_filter_keep _ _
    (fun w hw => by
      simp only [decide_eq_true_eq] at hw
      simp [hw, hin]) s.zones

theorem zoneDelete_getZone_gone {ι : Type} [DecidableEq ι] (origZones : List (StoredZone ι))
    (snapIds : List ι) (s : Store ι) (i : ι)
    (hor : i ∈ origZones.map (fun w => w.zone_id)) (hni : i ∉ snapIds) :
    getZone (zoneDeletePhase origZones snapIds s).1 i = none := by
  unfold zoneDeletePhase getZone
  exact find?_filter_gone _ _
    (fun w hw => by
      simp only [decide_eq_true_eq] at hw
      simp [hw, hor, hni]) s.zones

theorem zoneDelete_ids_subset {ι : Type} [DecidableEq ι] (origZones : List (StoredZone ι))
    (snapIds : List ι) (s : Store ι) (sz : StoredZone ι)
    (hmem : sz ∈ (zoneDeletePhase origZones snapIds s).1.zones) :
    sz ∈ s.zones ∧ ¬(sz.zone_id ∈ origZones.map (fun w => w.zone_id) ∧ sz.zone_id ∉ snapIds) := by
  unfold zoneDeletePhase at hmem
  rcases List.mem_filter.mp hmem with ⟨h1, h2⟩
  refine ⟨h1, ?_⟩
  intro ⟨ha, hb⟩
  simp [ha, hb] at h2

theorem flatten_all_nil {α β : Type} (g : α → List β) :
    ∀ l : List α, (∀ x ∈ l, g x = []) → ((l.map g).flatten = ([] : List β))
  | [], _ => rfl
  | x :: t, h => by
    simp only [List.map_cons, List.flatten_cons, h x (List.mem_cons_self x t),
      List.nil_append]
    exact flatten_all_nil g t (fun y hy => h y (List.mem_cons_of_mem x hy))

theorem zoneDelete_log_block {ι : Type} [DecidableEq ι] (origZones : List (StoredZone ι))
    (snapIds : List ι) (s : Store ι) (sz : StoredZone ι)
    (hmem : sz ∈ origZones) (hni : sz.zone_id ∉ snapIds) :
    ∃ pre post, (zoneDeletePhase origZones snapIds s).2 =
      pre ++ (sz.records.map (fun r => WriteOp.deleteRecord r.id) ++
        [WriteOp.deleteZone sz.zone_id]) ++ post := by
  rcases List.append_of_mem hmem with ⟨l1, l2, rfl⟩
  refine ⟨(l1.map (zoneDeleteBlock snapIds)).flatten,
    (l2.map (zoneDeleteBlock snapIds)).flatten, ?_⟩
  show ((l1 ++ sz :: l2).map (zoneDeleteBlock snapIds)).flatten = _
  rw [List.map_append, List.flatten_append, List.map_cons, List.flatten_cons]
  unfold zoneDeleteBlock
  rw [if_neg hni]
  simp [List.append_assoc]

/-! ## Record phase -/

theorem recordUpsertGo_ok_char {ι : Type} [DecidableEq ι] (orig : List (StoredRecord ι)) :
    ∀ (rs : List (SnapRecord ι)) (acc a : List (StoredRecord ι) × List (WriteOp ι)),
      recordUpsertGo orig rs acc = .ok a →
      a.1 = acc.1 ++ (rs.filter (fun r => decide (r.id ∉ orig.map (fun x => x.id)))).map
          (fun r => (⟨r.id, recPropsOf r⟩ : StoredRecord ι)) ∧
      a.2 = acc.2 ++ (rs.filter (fun r => decide (r.id ∉ orig.map (fun x => x.id)))).map
          (fun r => (WriteOp.createRecord r.id : WriteOp ι))
  | [], acc, a, h => by
    have ha : acc = a := by
      unfold recordUpsertGo at h
      exact Except.ok.inj h
    subst ha
    simp
  | r :: rs, acc, a, h => by
    unfold recordUpsertGo at h
    cases hstep : rUpsertStep orig acc r with
    | error e =>
      rw [hstep] at h
      exact Except.noConfusion h
    | ok acc2 =>
      rw [hstep] at h
      rcases recordUpsertGo_ok_char orig rs acc2 a h with ⟨h1, h2⟩
      by_cases hmem : r.id ∈ orig.map (fun x => x.id)
      · have hacc2 : acc2 = acc := by
          unfold rUpsertStep at hstep
          rw [if_pos hmem] at hstep
          cases hsr : orig.find? (fun x => decide (x.id = r.id)) with
          | none =>
            rw [hsr] at hstep
            exact (Except.ok.inj hstep).symm
          | some sr =>
            rw [hsr] at hstep
            have hstep2 : (if sr.props = recPropsOf r then Except.ok acc
                else Except.error ()) = Except.ok acc2 := hstep
            by_cases hp : sr.props = recPropsOf r
            · rw [if_pos hp] at hstep2
              exact (Except.ok.inj hstep2).symm
            · rw [if_neg hp] at hstep2
              exact Except.noConfusion hstep2
        subst hacc2
        rw [List.filter_cons, if_neg (by simp [hmem])]
        exact ⟨h1, h2⟩
      · have hacc2 : acc2 = (acc.1 ++ [⟨r.id, recPropsOf r⟩],
            acc.2 ++ [WriteOp.createRecord r.id]) := by
          unfold rUpsertStep at hstep
          rw [if_neg hmem] at hstep
          exact (Except.ok.inj hstep).symm
        subst hacc2
        rw [List.filter_cons, if_pos (by simp [hmem])]
        constructor
        · rw [h1]
          simp [List.append_assoc]
        · rw [h2]
          simp [List.append_assoc]

theorem recordUpsertGo_ok_matched {ι : Type} [DecidableEq ι] (orig : List (StoredRecord ι)) :
    ∀ (rs : List (SnapRecord ι)) (acc a : List (StoredRecord ι) × List (WriteOp ι)),
      recordUpsertGo orig rs acc = .ok a →
      ∀ r ∈ rs, ∀ sr, orig.find? (fun x => decide (x.id = r.id)) = some sr →
        sr.props = recPropsOf r
  | [], _, _, _, r, hr, _, _ => absurd hr (List.not_mem_nil r)
  | r0 :: rs, acc, a, h, r, hr, sr, hsr => by
    unfold recordUpsertGo at h
    cases hstep : rUpsertStep orig acc r0 with
    | error e =>
      rw [hstep] at h
      exact Except.noConfusion h
    | ok acc2 =>
      rw [hstep] at h
      rcases List.mem_cons.mp hr with rfl | hrt
      · have hmem : r.id ∈ orig.map (fun x => x.id) := by
          have hin := List.mem_of_find?_eq_some hsr
          have hid : sr.id = r.id := by
            have := List.find?_some hsr
            simpa using this
          exact List.mem_map.mpr ⟨sr, hin, hid⟩
        by_cases hp : sr.props = recPropsOf r
        · exact hp
        · exfalso
          unfold rUpsertStep at hstep
          rw [if_pos hmem, hsr] at hstep
          have hstep2 : (if sr.props = recPropsOf r then Except.ok acc
              else Except.error ()) = Except.ok acc2 := hstep
          rw [if_neg hp] at hstep2
          exact Except.noConfusion hstep2
      · exact recordUpsertGo_ok_matched orig rs acc2 a h r hrt sr hsr

theorem rUpsert_ok_find {ι : Type} [DecidableEq ι] (orig : List (StoredRecord ι))
    (rs : List (SnapRecord ι)) (hnd : ((rs.map (fun r => r.id)).Nodup))
    (a : List (StoredRecord ι) × List (WriteOp ι))
    (hok : recordUpsert orig rs = .ok a) (r : SnapRecord ι) (hr : r ∈ rs) :
    a.1.find? (fun x => decide (x.id = r.id)) = some ⟨r.id, recPropsOf r⟩ := by
  have hchar := (recordUpsertGo_ok_char orig rs (orig, []) a hok).1
  rw [hchar]
  by_cases hmem : r.id ∈ orig.map (fun x => x.id)
  · have hsome : ∃ sr, orig.find? (fun x => decide (x.id = r.id)) = some sr := by
      rcases List.mem_map.mp hmem with ⟨x, hx, hid⟩
      have : (orig.find? (fun x => decide (x.id = r.id))).isSome = true :=
        List.find?_isSome.mpr ⟨x, hx, by simp [hid]⟩
      exact Option.isSome_iff_exists.mp this
    rcases hsome with ⟨sr, hsr⟩
    have hid : sr.id = r.id := by
      have := List.find?_some hsr
      simpa using this
    have hp : sr.props = recPropsOf r :=
      recordUpsertGo_ok_matched orig rs (orig, []) a hok r hr sr hsr
    have hsreq : orig.find? (fun x => decide (x.id = r.id)) =
        some ⟨r.id, recPropsOf r⟩ := by
      rw [hsr]
      obtain ⟨i, p⟩ := sr
      simp only at hid hp
      rw [hid, hp]
    rw [List.find?_append, hsreq]
    rfl
  · have hnone : orig.find? (fun x => decide (x.id = r.id)) = none := by
      rw [List.find?_eq_none]
      intro x hx hp
      simp only [decide_eq_true_eq] at hp
      exact hmem (List.mem_map.mpr ⟨x, hx, hp⟩)
    rw [List.find?_append, hnone]
    have hids : (((rs.filter (fun w => decide (w.id ∉ orig.map (fun x => x.id)))).map
        (fun w => (⟨w.id, recPropsOf w⟩ : StoredRecord ι))).map (fun x => x.id)) =
        (rs.map (fun w => w.id)).filter
          (fun i => decide (i ∉ orig.map (fun x => x.id))) := by
      rw [← map_filter_comm (fun w => (w : SnapRecord ι).id)
        (fun i => decide (i ∉ orig.map (fun x => x.id)))]
      simp
    have hnd2 : ((((rs.filter (fun w => decide (w.id ∉ orig.map (fun x => x.id)))).map
        (fun w => (⟨w.id, recPropsOf w⟩ : StoredRecord ι))).map (fun x => x.id)).Nodup) := by
      rw [hids]
      exact hnd.filter _
    have hx : (⟨r.id, recPropsOf r⟩ : StoredRecord ι) ∈
        (rs.filter (fun w => decide (w.id ∉ orig.map (fun x => x.id)))).map
          (fun w => (⟨w.id, recPropsOf w⟩ : StoredRecord ι)) :=
      List.mem_map.mpr ⟨r, List.mem_filter.mpr ⟨hr, by simp [hmem]⟩, rfl⟩
    exact find?_key_self (fun x => (x : StoredRecord ι).id) hnd2 hx

theorem recordDelete_find_kept {ι : Type} [DecidableEq ι] (orig : List (StoredRecord ι))
    (snapIds : List ι) (cur : List (StoredRecord ι)) (i : ι) (hin : i ∈ snapIds) :
    (recordDelete orig snapIds cur).1.find? (fun x => decide (x.id = i)) =
      cur.find? (fun x => decide (x.id = i)) := by
  unfold recordDelete
  exact find?_filter_keep _ _
    (fun x hx => by
      simp only [decide_eq_true_eq] at hx
      simp [hx, hin]) cur

theorem recordDelete_mem {ι : Type} [DecidableEq ι] (orig : List (StoredRecord ι))
    (snapIds : List ι) (cur : List (StoredRecord ι)) (x : StoredRecord ι)
    (hx : x ∈ (recordDelete orig snapIds cur).1) :
    x ∈ cur ∧ ¬(x.id ∈ orig.map (fun u => u.id) ∧ x.id ∉ snapIds) := by
  unfold recordDelete at hx
  rcases List.mem_filter.mp hx with ⟨h1, h2⟩
  refine ⟨h1, ?_⟩
  intro ⟨ha, hb⟩
  simp [ha, hb] at h2

theorem setZoneRecords_self {ι : Type} [DecidableEq ι] (s : Store ι) (i : ι)
    (recs : List (StoredRecord ι)) :
    getZone (setZoneRecords s i recs) i =
      (getZone s i).map (fun w => { w with records := recs }) :=
  find?_updateFirst_keq (fun w => (w : StoredZone ι).zone_id)
    (fun w => { w with records := recs }) (fun x => rfl) i s.zones

theorem setZoneRecords_other {ι : Type} [DecidableEq ι] (s : Store ι) (i j : ι)
    (recs : List (StoredRecord ι)) (hne : j ≠ i) :
    getZone (setZoneRecords s i recs) j = getZone s j :=
  find?_updateFirst_kne (fun w => (w : StoredZone ι).zone_id)
    (fun w => { w with records := recs }) (fun x => rfl) i j hne s.zones

theorem setZoneRecords_ids {ι : Type} [DecidableEq ι] (s : Store ι) (i : ι)
    (recs : List (StoredRecord ι)) :
    (setZoneRecords s i recs).zones.map (fun w => w.zone_id) =
      s.zones.map (fun w => w.zone_id) :=
  updateFirst_map_key (fun w => (w : StoredZone ι).zone_id)
    (fun w => { w with records := recs }) (fun x => rfl) i s.zones

theorem recordPhaseZone_none {ι : Type} [DecidableEq ι] (fault : ι → RecFault) (s : Store ι)
    (z : SnapZone ι) (hg : getZone s z.zone_id = none) :
    recordPhaseZone fault s z = (s, []) := by
  unfold recordPhaseZone
  rw [hg]

theorem recordPhaseZone_cases {ι : Type} [DecidableEq ι] (fault : ι → RecFault) (s : Store ι)
    (z : SnapZone ι) (sz : StoredZone ι) (hg : getZone s z.zone_id = some sz) :
    recordPhaseZone fault s z =
      match fault z.zone_id with
      | .failUpsert => (s, [])
      | .failDelete =>
        match recordUpsert sz.records z.records with
        | .error _ => (s, [])
        | .ok a => (setZoneRecords s z.zone_id a.1, a.2)
      | .ok =>
        match recordUpsert sz.records z.records with
        | .error _ => (s, [])
        | .ok a =>
          (setZoneRecords s z.zone_id
             (recordDelete sz.records (z.records.map (fun r => r.id)) a.1).1,
           a.2 ++ (recordDelete sz.records (z.records.map (fun r => r.id)) a.1).2) := by
  unfold recordPhaseZone
  rw [hg]

theorem zoneRecordOutcome_some {ι : Type} [DecidableEq ι] (fault : ι → RecFault)
    (z : SnapZone ι) (sz : StoredZone ι) :
    zoneRecordOutcome fault z (some sz) =
      match fault z.zone_id with
      | .failUpsert => some sz
      | .failDelete =>
        match recordUpsert sz.records z.records with
        | .error _ => some sz
        | .ok a => some { sz with records := a.1 }
      | .ok =>
        match recordUpsert sz.records z.records with
        | .error _ => some sz
        | .ok a => some { sz with records :=
            (recordDelete sz.records (z.records.map (fun r => r.id)) a.1).1 } := rfl

theorem zoneLogOutcome_some {ι : Type} [DecidableEq ι] (fault : ι → RecFault)
    (z : SnapZone ι) (sz : StoredZone ι) :
    zoneLogOutcome fault z (some sz) =
      match fault z.zone_id with
      | .failUpsert => []
      | .failDelete =>
        match recordUpsert sz.records z.records with
        | .error _ => []
        | .ok a => a.2
      | .ok =>
        match recordUpsert sz.records z.records with
        | .error _ => []
        | .ok a => a.2 ++ (recordDelete sz.records (z.records.map (fun r => r.id)) a.1).2 := rfl

theorem recordPhaseZone_other {ι : Type} [DecidableEq ι] (fault : ι → RecFault) (s : Store ι)
    (z : SnapZone ι) (i : ι) (hne : i ≠ z.zone_id) :
    getZone (recordPhaseZone fault s z).1 i = getZone s i := by
  cases hg : getZone s z.zone_id with
  | none => rw [recordPhaseZone_none fault s z hg]
  | some sz =>
    rw [recordPhaseZone_cases fault s z sz hg]
    cases fault z.zone_id with
    | failUpsert => rfl
    | failDelete =>
      cases recordUpsert sz.records z.records with
      | error e => rfl
      | ok a => exact setZoneRecords_other s z.zone_id i _ hne
    | ok =>
      cases recordUpsert sz.records z.records with
      | error e => rfl
      | ok a => exact setZoneRecords_other s z.zone_id i _ hne

theorem recordPhaseZone_self {ι : Type} [DecidableEq ι] (fault : ι → RecFault) (s : Store ι)
    (z : SnapZone ι) :
    getZone (recordPhaseZone fault s z).1 z.zone_id =
      zoneRecordOutcome fault z (getZone s z.zone_id) := by
  cases hg : getZone s z.zone_id with
  | none =>
    rw [recordPhaseZone_none fault s z hg]
    exact hg
  | some sz =>
    rw [recordPhaseZone_cases fault s z sz hg, zoneRecordOutcome_some]
    cases fault z.zone_id with
    | failUpsert => exact hg
    | failDelete =>
      cases recordUpsert sz.records z.records with
      | error e => exact hg
      | ok a =>
        rw [setZoneRecords_self, hg]
        rfl
    | ok =>
      cases recordUpsert sz.records z.records with
      | error e => exact hg
      | ok a =>
        rw [setZoneRecords_self, hg]
        rfl

theorem recordPhaseZone_log {ι : Type} [DecidableEq ι] (fault : ι → RecFault) (s : Store ι)
    (z : SnapZone ι) :
    (recordPhaseZone fault s z).2 = zoneLogOutcome fault z (getZone s z.zone_id) := by
  cases hg : getZone s z.zone_id with
  | none =>
    rw [recordPhaseZone_none fault s z hg]
    rfl
  | some sz =>
    rw [recordPhaseZone_cases fault s z sz hg, zoneLogOutcome_some]
    cases fault z.zone_id with
    | failUpsert => rfl
    | failDelete =>
      cases recordUpsert sz.records z.records with
      | error e => rfl
      | ok a => rfl
    | ok =>
      cases recordUpsert sz.records z.records with
      | error e => rfl
      | ok a => rfl

theorem recordPhaseZone_ids {ι : Type} [DecidableEq ι] (fault : ι → RecFault) (s : Store ι)
    (z : SnapZone ι) :
    (recordPhaseZone fault s z).1.zones.map (fun w => w.zone_id) =
      s.zones.map (fun w => w.zone_id) := by
  cases hg : getZone s z.zone_id with
  | none => rw [recordPhaseZone_none fault s z hg]
  | some sz =>
    rw [recordPhaseZone_cases fault s z sz hg]
    cases fault z.zone_id with
    | failUpsert => rfl
    | failDelete =>
      cases recordUpsert sz.records z.records with
      | error e => rfl
      | ok a => exact setZoneRecords_ids s z.zone_id _
    | ok =>
      cases recordUpsert sz.records z.records with
      | error e => rfl
      | ok a => exact setZoneRecords_ids s z.zone_id _

theorem phase2Fold_other {ι : Type} [DecidableEq ι] (fault : ι → RecFault) (i : ι) :
    ∀ (snap : List (SnapZone ι)) (acc : Store ι × List (WriteOp ι)),
      (∀ z ∈ snap, z.zone_id ≠ i) →
      getZone (snap.foldl (phase2Step fault) acc).1 i = getZone acc.1 i
  | [], acc, _ => rfl
  | z :: t, acc, h => by
    rw [List.foldl_cons]
    rw [phase2Fold_other fault i t (phase2Step fault acc z)
      (fun w hw => h w (List.mem_cons_of_mem z hw))]
    exact recordPhaseZone_other fault acc.1 z i (fun he => h z (List.mem_cons_self z t) he.symm)

theorem phase2Fold_ids {ι : Type} [DecidableEq ι] (fault : ι → RecFault) :
    ∀ (snap : List (SnapZone ι)) (acc : Store ι × List (WriteOp ι)),
      (snap.foldl (phase2Step fault) acc).1.zones.map (fun w => w.zone_id) =
        acc.1.zones.map (fun w => w.zone_id)
  | [], acc => rfl
  | z :: t, acc => by
    rw [List.foldl_cons, phase2Fold_ids fault t (phase2Step fault acc z)]
    exact recordPhaseZone_ids fault acc.1 z

theorem phase2Fold_self {ι : Type} [DecidableEq ι] (fault : ι → RecFault) :
    ∀ (snap : List (SnapZone ι)),
      ((snap.map (fun z => z.zone_id)).Nodup) →
      ∀ z ∈ snap, ∀ (acc : Store ι × List (WriteOp ι)),
        getZone (snap.foldl (phase2Step fault) acc).1 z.zone_id =
          zoneRecordOutcome fault z (getZone acc.1 z.zone_id)
  | [], _, z, hz, _ => absurd hz (List.not_mem_nil z)
  | w :: t, hnd, z, hz, acc => by
    rw [List.foldl_cons]
    rcases List.mem_cons.mp hz with rfl | hzt
    · have hnotin : ∀ u ∈ t, u.zone_id ≠ z.zone_id := by
        intro u hu he
        have : z.zone_id ∈ t.map (fun x => x.zone_id) := List.mem_map.mpr ⟨u, hu, he⟩
        exact (List.nodup_cons.mp hnd).1 this
      rw [phase2Fold_other fault z.zone_id t _ hnotin]
      exact recordPhaseZone_self fault acc.1 z
    · have hne : z.zone_id ≠ w.zone_id := by
        intro he
        have hmemz : w.zone_id ∈ t.map (fun x => x.zone_id) :=
          List.mem_map.mpr ⟨z, hzt, he⟩
        exact (List.nodup_cons.mp hnd).1 hmemz
      rw [phase2Fold_self fault t (List.nodup_cons.mp hnd).2 z hzt (phase2Step fault acc w)]
      have hpres : getZone (phase2Step fault acc w).1 z.zone_id = getZone acc.1 z.zone_id := by
        simp only [phase2Step]
        exact recordPhaseZone_other fault acc.1 w z.zone_id hne
      rw [hpres]

theorem phase2Fold_log_extend {ι : Type} [DecidableEq ι] (fault : ι → RecFault) :
    ∀ (snap : List (SnapZone ι)) (acc : Store ι × List (WriteOp ι)),
      ∃ ext, (snap.foldl (phase2Step fault) acc).2 = acc.2 ++ ext
  | [], acc => ⟨[], by simp⟩
  | z :: t, acc => by
    rw [List.foldl_cons]
    rcases phase2Fold_log_extend fault t (phase2Step fault acc z) with ⟨ext, hext⟩
    exact ⟨(recordPhaseZone fault acc.1 z).2 ++ ext, by
      rw [hext]
      simp only [phase2Step]
      rw [List.append_assoc]⟩

theorem phase2Fold_log_block {ι : Type} [DecidableEq ι] (fault : ι → RecFault) :
    ∀ (snap : List (SnapZone ι)),
      ((snap.map (fun z => z.zone_id)).Nodup) →
      ∀ z ∈ snap, ∀ (acc : Store ι × List (WriteOp ι)),
        ∃ pre post, (snap.foldl (phase2Step fault) acc).2 =
          pre ++ zoneLogOutcome fault z (getZone acc.1 z.zone_id) ++ post
  | [], _, z, hz, _ => absurd hz (List.not_mem_nil z)
  | w :: t, hnd, z, hz, acc => by
    rw [List.foldl_cons]
    rcases List.mem_cons.mp hz with rfl | hzt
    · rcases phase2Fold_log_extend fault t (phase2Step fault acc z) with ⟨ext, hext⟩
      refine ⟨acc.2, ext, ?_⟩
      rw [hext]
      have hlog : (phase2Step fault acc z).2 =
          acc.2 ++ zoneLogOutcome fault z (getZone acc.1 z.zone_id) := by
        simp only [phase2Step]
        rw [recordPhaseZone_log]
      rw [hlog]
    · have hne : z.zone_id ≠ w.zone_id := by
        intro he
        have hmemz : w.zone_id ∈ t.map (fun x => x.zone_id) :=
          List.mem_map.mpr ⟨z, hzt, he⟩
        exact (List.nodup_cons.mp hnd).1 hmemz
      rcases phase2Fold_log_block fault t (List.nodup_cons.mp hnd).2 z hzt
        (phase2Step fault acc w) with ⟨pre, post, hpp⟩
      have hpres : getZone (phase2Step fault acc w).1 z.zone_id = getZone acc.1 z.zone_id := by
        simp only [phase2Step]
        exact recordPhaseZone_other fault acc.1 w z.zone_id hne
      rw [hpres] at hpp
      exact ⟨pre, post, hpp⟩

/-! ## The completed record pass is in sync with the snapshot zone -/

theorem outcome_records_synced {ι : Type} [DecidableEq ι] (orig : List (StoredRecord ι))
    (rs : List (SnapRecord ι)) (hnd : ((rs.map (fun r => r.id)).Nodup))
    (a : List (StoredRecord ι) × List (WriteOp ι)) (hok : recordUpsert orig rs = .ok a) :
    RecordsSynced rs (recordDelete orig (rs.map (fun r => r.id)) a.1).1 := by
  constructor
  · intro sr hsr
    rcases recordDelete_mem orig _ _ sr hsr with ⟨hmem, hnot⟩
    have hchar := (recordUpsertGo_ok_char orig rs (orig, []) a hok).1
    rw [hchar] at hmem
    rcases List.mem_append.mp hmem with hin | hin
    · by_contra hnotin
      exact hnot ⟨List.mem_map.mpr ⟨sr, hin, rfl⟩, hnotin⟩
    · rcases List.mem_map.mp hin with ⟨r, hrmem, hrid⟩
      rcases List.mem_filter.mp hrmem with ⟨hrs, _⟩
      have hsrid : sr.id = r.id := by rw [← hrid]
      rw [hsrid]
      exact List.mem_map.mpr ⟨r, hrs, rfl⟩
  · intro r hr
    have hkept := recordDelete_find_kept orig (rs.map (fun x => x.id)) a.1 r.id
      (List.mem_map.mpr ⟨r, hr, rfl⟩)
    rw [hkept]
    exact rUpsert_ok_find orig rs hnd a hok r hr

/-- One zone's record pass over its phase-1 entry leaves it settled: either
the pass completed and the records agree with the snapshot, or the upsert
loop raised at line 151 and the records are untouched (so the same raise
recurs on any later identical pass). -/
theorem outcome_entry_settled {ι : Type} [DecidableEq ι] (z : SnapZone ι)
    (hnd : ((z.records.map (fun r => r.id)).Nodup)) (R : List (StoredRecord ι)) :
    ∃ recs, zoneRecordOutcome noFault z (some ⟨z.zone_id, zonePropsOf z, z.tags, R⟩) =
        some ⟨z.zone_id, zonePropsOf z, z.tags, recs⟩ ∧
      (RecordsSynced z.records recs ∨ recordUpsert recs z.records = Except.error ()) := by
  unfold zoneRecordOutcome
  simp only [noFault]
  cases herr : recordUpsert R z.records with
  | error e =>
    cases e
    exact ⟨R, rfl, Or.inr herr⟩
  | ok a =>
    exact ⟨_, rfl, Or.inl (outcome_records_synced R z.records hnd a herr)⟩

/-! ## A completed run leaves the store in sync with the snapshot -/

theorem phase1_getZone_snap {ι : Type} [DecidableEq ι] (snap : List (SnapZone ι)) (s : Store ι)
    (hnd : (snap.map (fun z => z.zone_id)).Nodup) (z : SnapZone ι) (hz : z ∈ snap) :
    getZone (phase1 snap s).1 z.zone_id =
      some ⟨z.zone_id, zonePropsOf z, z.tags,
        match getZone s z.zone_id with
        | some sz => sz.records
        | none => []⟩ := by
  unfold phase1
  have hkept := zoneDelete_getZone_kept s.zones (snap.map (fun w => w.zone_id))
    (zoneUpsertPhase snap s).1 z.zone_id (List.mem_map.mpr ⟨z, hz, rfl⟩)
  simp only []
  rw [hkept]
  exact zUpsertFold_self s snap hnd z hz (s, []) rfl

theorem process_zones_synced {ι : Type} [DecidableEq ι] (snap : List (SnapZone ι)) (s : Store ι)
    (hnd1 : (snap.map (fun z => z.zone_id)).Nodup)
    (hnd2 : ∀ z ∈ snap, ((z.records.map (fun r => r.id)).Nodup)) :
    StoreSynced snap (process_zones snap s noFault).1 := by
  constructor
  · intro sz hsz
    have hidmem : sz.zone_id ∈ (process_zones snap s noFault).1.zones.map
        (fun w => w.zone_id) := List.mem_map.mpr ⟨sz, hsz, rfl⟩
    unfold process_zones at hidmem
    simp only [] at hidmem
    unfold phase2 at hidmem
    rw [phase2Fold_ids] at hidmem
    unfold phase1 at hidmem
    simp only [] at hidmem
    unfold zoneDeletePhase at hidmem
    simp only [] at hidmem
    rw [map_filter_comm (fun w => (w : StoredZone ι).zone_id)
      (fun i => !(decide (i ∈ s.zones.map (fun u => u.zone_id)) &&
        decide (i ∉ snap.map (fun u => u.zone_id))))] at hidmem
    rcases List.mem_filter.mp hidmem with ⟨hin, hkeep⟩
    unfold zoneUpsertPhase at hin
    rw [zUpsertFold_ids] at hin
    rcases List.mem_append.mp hin with horig | hnew
    · by_cases hsnap : sz.zone_id ∈ snap.map (fun u => u.zone_id)
      · exact hsnap
      · simp [horig, hsnap] at hkeep
    · rcases List.mem_map.mp hnew with ⟨w, hwmem, hwid⟩
      rcases List.mem_filter.mp hwmem with ⟨hws, _⟩
      exact hwid ▸ List.mem_map.mpr ⟨w, hws, rfl⟩
  · intro z hz
    have hentry : getZone (process_zones snap s noFault).1 z.zone_id =
        zoneRecordOutcome noFault z (getZone (phase1 snap s).1 z.zone_id) := by
      unfold process_zones
      simp only []
      exact phase2Fold_self noFault snap hnd1 z hz ((phase1 snap s).1, [])
    rw [phase1_getZone_snap snap s hnd1 z hz] at hentry
    rcases outcome_entry_settled z (hnd2 z hz)
      (match getZone s z.zone_id with
        | some sz => sz.records
        | none => []) with ⟨recs, hout, hset⟩
    rw [hout] at hentry
    exact ⟨recs, hentry, hset⟩

/-! ## A synced store makes the run a no-op -/

theorem zUpsertFold_noop {ι : Type} [DecidableEq ι] (s : Store ι) :
    ∀ (snap : List (SnapZone ι)),
      (∀ z ∈ snap, ∃ recs, getZone s z.zone_id =
        some ⟨z.zone_id, zonePropsOf z, z.tags, recs⟩) →
      ∀ log, snap.foldl (zUpsertStep (s.zones.map (fun w => w.zone_id))) (s, log) = (s, log)
  | [], _, log => rfl
  | z :: t, h, log => by
    rw [List.foldl_cons]
    rcases h z (List.mem_cons_self z t) with ⟨recs, hget⟩
    have hmem : z.zone_id ∈ s.zones.map (fun w => w.zone_id) :=
      (mem_ids_iff_getZone s z.zone_id).mpr ⟨_, hget⟩
    have hstep : zUpsertStep (s.zones.map (fun w => w.zone_id)) (s, log) z = (s, log) := by
      unfold zUpsertStep
      rw [if_pos hmem]
      have hget2 : getZone ((s, log) :
          Store ι × List (WriteOp ι)).1 z.zone_id =
          some ⟨z.zone_id, zonePropsOf z, z.tags, recs⟩ := hget
      rw [hget2]
      show ((⟨updateFirst (fun w => decide (w.zone_id = z.zone_id))
          (fun w => { w with props := zonePropsOf z, tags := z.tags }) s.zones⟩ : Store ι),
        log ++ (if (⟨z.zone_id, zonePropsOf z, z.tags, recs⟩ : StoredZone ι).props =
            zonePropsOf z ∧ (⟨z.zone_id, zonePropsOf z, z.tags, recs⟩ : StoredZone ι).tags =
            z.tags then [] else [WriteOp.updZone z.zone_id])) = (s, log)
      rw [updateFirst_eq_self (fun (w : StoredZone ι) => decide (w.zone_id = z.zone_id))
        (fun (w : StoredZone ι) => { w with props := zonePropsOf z, tags := z.tags }) s.zones
        ⟨z.zone_id, zonePropsOf z, z.tags, recs⟩ hget rfl]
      rw [if_pos ⟨rfl, rfl⟩, List.append_nil]
    rw [hstep]
    exact zUpsertFold_noop s t (fun w hw => h w (List.mem_cons_of_mem z hw)) log

theorem zoneDeletePhase_noop {ι : Type} [DecidableEq ι] (snapIds : List ι) (s : Store ι)
    (h : ∀ w ∈ s.zones, w.zone_id ∈ snapIds) :
    zoneDeletePhase s.zones snapIds s = (s, []) := by
  unfold zoneDeletePhase
  have hstore : s.zones.filter (fun w =>
      !(decide (w.zone_id ∈ s.zones.map (fun u => u.zone_id)) &&
        decide (w.zone_id ∉ snapIds))) = s.zones :=
    List.filter_eq_self.mpr (fun w hw => by simp [h w hw])
  have hlog : ((s.zones.map (zoneDeleteBlock snapIds)).flatten = ([] : List (WriteOp ι))) :=
    flatten_all_nil _ s.zones (fun w hw => by
      unfold zoneDeleteBlock
      rw [if_pos (h w hw)])
  rw [hstore, hlog]

theorem recordUpsertGo_noop {ι : Type} [DecidableEq ι] (recs : List (StoredRecord ι)) :
    ∀ (rs : List (SnapRecord ι)),
      (∀ r ∈ rs, recs.find? (fun x => decide (x.id = r.id)) = some ⟨r.id, recPropsOf r⟩) →
      ∀ log, recordUpsertGo recs rs (recs, log) = .ok (recs, log)
  | [], _, log => rfl
  | r :: t, h, log => by
    unfold recordUpsertGo
    have hfind := h r (List.mem_cons_self r t)
    have hmem : r.id ∈ recs.map (fun x => x.id) := by
      have hin := List.mem_of_find?_eq_some hfind
      exact List.mem_map.mpr ⟨⟨r.id, recPropsOf r⟩, hin, rfl⟩
    have hstep : rUpsertStep recs ((recs, log) :
        List (StoredRecord ι) × List (WriteOp ι)) r = .ok (recs, log) := by
      unfold rUpsertStep
      rw [if_pos hmem, hfind]
      show (if (⟨r.id, recPropsOf r⟩ : StoredRecord ι).props = recPropsOf r
        then Except.ok ((recs, log) : List (StoredRecord ι) × List (WriteOp ι))
        else Except.error ()) = .ok (recs, log)
      rw [if_pos rfl]
    rw [hstep]
    exact recordUpsertGo_noop recs t (fun w hw => h w (List.mem_cons_of_mem r hw)) log

theorem recordPhaseZone_noop {ι : Type} [DecidableEq ι] (s : Store ι) (z : SnapZone ι)
    (recs : List (StoredRecord ι))
    (hget : getZone s z.zone_id = some ⟨z.zone_id, zonePropsOf z, z.tags, recs⟩)
    (hsync : RecordsSynced z.records recs ∨ recordUpsert recs z.records = .error ()) :
    recordPhaseZone noFault s z = (s, []) := by
  unfold recordPhaseZone
  rw [hget]
  show ((match noFault z.zone_id with
    | RecFault.failUpsert => (s, [])
    | RecFault.failDelete =>
      match recordUpsert recs z.records with
      | .error _ => (s, [])
      | .ok a => (setZoneRecords s z.zone_id a.1, a.2)
    | RecFault.ok =>
      match recordUpsert recs z.records with
      | .error _ => (s, [])
      | .ok a =>
        (setZoneRecords s z.zone_id
           (recordDelete recs (z.records.map (fun r => r.id)) a.1).1,
         a.2 ++ (recordDelete recs (z.records.map (fun r => r.id)) a.1).2)) :
    Store ι × List (WriteOp ι)) = (s, [])
  show (match recordUpsert recs z.records with
    | .error _ => (s, [])
    | .ok a =>
      (setZoneRecords s z.zone_id
         (recordDelete recs (z.records.map (fun r => r.id)) a.1).1,
       a.2 ++ (recordDelete recs (z.records.map (fun r => r.id)) a.1).2)) = (s, [])
  rcases hsync with hsync | herr
  · have hupsert : recordUpsert recs z.records = .ok (recs, []) :=
      recordUpsertGo_noop recs z.records hsync.2 []
    have hdelete : recordDelete recs (z.records.map (fun r => r.id)) recs = (recs, []) := by
      unfold recordDelete
      have hstore : recs.filter (fun x =>
          !(decide (x.id ∈ recs.map (fun u => u.id)) &&
            decide (x.id ∉ z.records.map (fun r => r.id)))) = recs :=
        List.filter_eq_self.mpr (fun x hx => by simp [hsync.1 x hx])
      have hlog : recs.filter (fun x => decide (x.id ∉ z.records.map (fun r => r.id))) = [] :=
        List.filter_eq_nil_iff.mpr (fun x hx => by simp [hsync.1 x hx])
      rw [hstore, hlog]
      rfl
    rw [hupsert]
    show (setZoneRecords s z.zone_id
        (recordDelete recs (z.records.map (fun r => r.id)) recs).1,
      [] ++ (recordDelete recs (z.records.map (fun r => r.id)) recs).2) = (s, [])
    rw [hdelete]
    show (setZoneRecords s z.zone_id recs, ([] : List (WriteOp ι))) = (s, [])
    unfold setZoneRecords
    rw [updateFirst_eq_self (fun (w : StoredZone ι) => decide (w.zone_id = z.zone_id))
      (fun (w : StoredZone ι) => { w with records := recs }) s.zones
      ⟨z.zone_id, zonePropsOf z, z.tags, recs⟩ hget rfl]
  · rw [herr]

theorem phase2Fold_noop {ι : Type} [DecidableEq ι] (s : Store ι) :
    ∀ (snap : List (SnapZone ι)),
      (∀ z ∈ snap, ∃ recs, getZone s z.zone_id =
        some ⟨z.zone_id, zonePropsOf z, z.tags, recs⟩ ∧
        (RecordsSynced z.records recs ∨ recordUpsert recs z.records = .error ())) →
      ∀ log, snap.foldl (phase2Step noFault) (s, log) = (s, log)
  | [], _, log => rfl
  | z :: t, h, log => by
    rw [List.foldl_cons]
    rcases h z (List.mem_cons_self z t) with ⟨recs, hget, hsync⟩
    have hstep : phase2Step noFault ((s : Store ι), log) z = (s, log) := by
      simp only [phase2Step]
      rw [recordPhaseZone_noop s z recs hget hsync]
      simp
    rw [hstep]
    exact phase2Fold_noop s t (fun w hw => h w (List.mem_cons_of_mem z hw)) log

theorem process_zones_noop {ι : Type} [DecidableEq ι] (snap : List (SnapZone ι)) (s : Store ι)
    (hsync : StoreSynced snap s) : process_zones snap s noFault = (s, []) := by
  have h1 : zoneUpsertPhase snap s = (s, []) :=
    zUpsertFold_noop s snap
      (fun z hz => (hsync.2 z hz).elim (fun recs hr => ⟨recs, hr.1⟩)) []
  have h2 : zoneDeletePhase s.zones (snap.map (fun z => z.zone_id)) s = (s, []) :=
    zoneDeletePhase_noop _ s (fun w hw => hsync.1 w hw)
  have h3 : phase2 noFault snap s = (s, []) :=
    phase2Fold_noop s snap (fun z hz => hsync.2 z hz) []
  unfold process_zones phase1
  rw [show zoneUpsertPhase snap s = (s, []) from h1]
  show ((phase2 noFault snap (zoneDeletePhase s.zones (snap.map (fun z => z.zone_id)) s).1).1,
    ([] ++ (zoneDeletePhase s.zones (snap.map (fun z => z.zone_id)) s).2) ++
      (phase2 noFault snap (zoneDeletePhase s.zones (snap.map (fun z => z.zone_id)) s).1).2) =
    (s, [])
  rw [h2]
  show ((phase2 noFault snap s).1, ([] ++ []) ++ (phase2 noFault snap s).2) = (s, [])
  rw [h3]
  rfl

/-! # Claims -/

/-- C1: reconciliation is idempotent.  For every snapshot (with well-formed,
duplicate-free zone and record id sets, as the id invariants of the data model
guarantee) and every store, running `process_zones` a second time with the
same snapshot immediately after a completed first run leaves the store
untouched and performs zero storage writes: the second run's write log is
empty. -/
theorem c1_idempotent_reconciliation {ι : Type} [DecidableEq ι]
    (snap : List (SnapZone ι)) (s : Store ι)
    (hnd1 : (snap.map (fun z => z.zone_id)).Nodup)
    (hnd2 : ∀ z ∈ snap, ((z.records.map (fun r => r.id)).Nodup)) :
    process_zones snap (process_zones snap s noFault).1 noFault =
      ((process_zones snap s noFault).1, []) :=
  process_zones_noop snap _ (process_zones_synced snap s hnd1 hnd2)

theorem c1_idempotent_reconciliation_witness :
    ((c1snap.map (fun z => z.zone_id)).Nodup) ∧
    process_zones c1snap (process_zones c1snap ⟨[]⟩ noFault).1 noFault =
      ((process_zones c1snap ⟨[]⟩ noFault).1, []) :=
  ⟨by decide, c1_idempotent_reconciliation c1snap ⟨[]⟩ (by decide) (by decide)⟩

/-- C3: multi-value merge.  If `__cloudflare_list_zone_records` returns (page
list `ps`, merged records `recs`) and the raw rows fetched over those pages
contain two or more rows with the same name `n`, then `recs` contains exactly
one record named `n`, its value is the lexicographically sorted list of all
those rows' `content` values, and no two merged records share a name. -/
theorem c3_multi_value_merge (fetch : Nat → CFPage RawRecord) (fuel : Nat)
    (ps : List Nat) (recs : List MergedRecord) (n : String)
    (hrun : cloudflare_list_zone_records fetch fuel = some (ps, recs))
    (h2 : 2 ≤ (((ps.map (fun p => (fetch p).result)).flatten).filter
      (fun r => decide (r.name = n))).length) :
    ((recs.map (fun m => m.name)).count n = 1) ∧
    (∃ m, lookupName recs n = some m ∧
      m.value = sortStrings ((((ps.map (fun p => (fetch p).result)).flatten).filter
        (fun r => decide (r.name = n))).map (fun r => r.content))) ∧
    ((recs.map (fun m => m.name)).Nodup) := by
  have hrecs : recs = mergeRows ((ps.map (fun p => (fetch p).result)).flatten) :=
    cfListRecordsLoop_result fetch fuel 1 [] ps recs hrun
  have hnodup : ((recs.map (fun m => m.name)).Nodup) := by
    rw [hrecs]
    exact mergeRows_names_nodup _
  cases hfil : ((ps.map (fun p => (fetch p).result)).flatten).filter
      (fun r => decide (r.name = n)) with
  | nil =>
    rw [hfil] at h2
    simp at h2
  | cons r rs =>
    have hlook : lookupName recs n =
        some ⟨n, sortStrings ((r :: rs).map (fun x => x.content)), r.type⟩ := by
      rw [hrecs, lookupName_mergeRows, hfil]
    refine ⟨?_, ⟨_, hlook, rfl⟩, hnodup⟩
    have hmemn : n ∈ recs.map (fun m => m.name) := by
      have hm := List.mem_of_find?_eq_some hlook
      exact List.mem_map.mpr ⟨_, hm, rfl⟩
    exact List.count_eq_one_of_mem hnodup hmemn

theorem c3_multi_value_merge_witness :
    (2 ≤ ((([1].map (fun p => (c3fetch p).result)).flatten).filter
      (fun r => decide (r.name = "www.example.com"))).length) ∧
    (((mergeRows ((c3fetch 1).result)).map (fun m => m.name)).count "www.example.com" = 1) ∧
    (∃ m, lookupName (mergeRows ((c3fetch 1).result)) "www.example.com" = some m ∧
      m.value = sortStrings ((((([1].map (fun p => (c3fetch p).result)).flatten).filter
        (fun r => decide (r.name = "www.example.com")))).map (fun r => r.content))) ∧
    (((mergeRows ((c3fetch 1).result)).map (fun m => m.name)).Nodup) := by
  refine ⟨by decide, ?_⟩
  have h := c3_multi_value_merge c3fetch 1 [1] (mergeRows ((c3fetch 1).result))
    "www.example.com" (by decide) (by decide)
  exact h

/-- C8: empty-zone suppression.  Every zone in a successful `get_axfr_records`
result, and every zone returned by `get_cloudflare_records`, has a non-empty
record list: a fetched zone with zero records after normalization or merge is
omitted from the snapshot. -/
theorem c8_empty_zone_suppression (domains : List String)
    (xfr : String → Except Unit (List AxfrRow)) (zlist : List CFZone)
    (recordsOf : String → Except Unit (List MergedRecord)) :
    (∀ zs, get_axfr_records domains xfr = Except.ok zs → ∀ z ∈ zs, z.records ≠ []) ∧
    (∀ z ∈ get_cloudflare_records zlist recordsOf, z.records ≠ []) := by
  constructor
  · exact fun zs h z hz => get_axfr_records_nonempty domains xfr zs h z hz
  · intro z hz
    rcases mem_get_cloudflare_records zlist recordsOf z hz with ⟨zobj, hzobj, mrs, hok, hzeq, hne⟩
    exact hne

theorem c8_empty_zone_suppression_witness :
    get_axfr_records c8domains c8xfr = Except.ok c8zs ∧
    (∀ z ∈ c8zs, z.records ≠ []) ∧
    (∀ z ∈ get_cloudflare_records c8zlist c8recordsOf, z.records ≠ []) :=
  ⟨rfl,
   fun z hz => (c8_empty_zone_suppression c8domains c8xfr c8zlist c8recordsOf).1
     c8zs rfl z hz,
   (c8_empty_zone_suppression c8domains c8xfr c8zlist c8recordsOf).2⟩

/-- C10: pagination termination.  Each CloudFlare listing loop terminates
exactly when some page number `N ≥ 1` has a response whose `result_info`
lacks `total_pages` or reports `total_pages = N`; in particular a response
sequence that always reports `total_pages = 0` makes the loop run forever
(no amount of fuel returns a result). -/
theorem c10_pagination_termination {α : Type} (fetchZ : Nat → CFPage α)
    (fetchR : Nat → CFPage RawRecord) :
    ((∃ fuel, (cloudflare_list_zones fetchZ fuel).isSome = true) ↔
      (∃ N, 1 ≤ N ∧ ((fetchZ N).total_pages = none ∨ (fetchZ N).total_pages = some N))) ∧
    ((∃ fuel, (cloudflare_list_zone_records fetchR fuel).isSome = true) ↔
      (∃ N, 1 ≤ N ∧ ((fetchR N).total_pages = none ∨ (fetchR N).total_pages = some N))) ∧
    ((∀ p, (fetchZ p).total_pages = some 0) →
      ∀ fuel, cloudflare_list_zones fetchZ fuel = none) ∧
    ((∀ p, (fetchR p).total_pages = some 0) →
      ∀ fuel, cloudflare_list_zone_records fetchR fuel = none) := by
  refine ⟨zones_terminates_iff fetchZ, records_terminates_iff fetchR, ?_, ?_⟩
  · intro h0 fuel
    have hno : ¬ ∃ fuel, (cloudflare_list_zones fetchZ fuel).isSome = true := by
      rw [zones_terminates_iff fetchZ]
      rintro ⟨N, hN1, hN2 | hN2⟩
      · rw [h0 N] at hN2
        exact Option.noConfusion hN2
      · rw [h0 N] at hN2
        have : (0 : Nat) = N := Option.some_inj.mp hN2
        omega
    cases hv : cloudflare_list_zones fetchZ fuel with
    | none => rfl
    | some v => exact absurd ⟨fuel, by rw [hv]; rfl⟩ hno
  · intro h0 fuel
    have hno : ¬ ∃ fuel, (cloudflare_list_zone_records fetchR fuel).isSome = true := by
      rw [records_terminates_iff fetchR]
      rintro ⟨N, hN1, hN2 | hN2⟩
      · rw [h0 N] at hN2
        exact Option.noConfusion hN2
      · rw [h0 N] at hN2
        have : (0 : Nat) = N := Option.some_inj.mp hN2
        omega
    cases hv : cloudflare_list_zone_records fetchR fuel with
    | none => rfl
    | some v => exact absurd ⟨fuel, by rw [hv]; rfl⟩ hno

theorem c10_pagination_termination_witness :
    cloudflare_list_zones c10fetchZ0 7 = none ∧
    cloudflare_list_zone_records c10fetchR0 7 = none :=
  ⟨(c10_pagination_termination c10fetchZ0 c10fetchR0).2.2.1 (fun _ => rfl) 7,
   (c10_pagination_termination c10fetchZ0 c10fetchR0).2.2.2 (fun _ => rfl) 7⟩

/-- C2 counterexample: the claim predicts that the single record emitted for
the two same-name raw rows carries the id computed from the first-seen raw
row's `key=value` rendering.  The code computes it from the *merged* record
(name, full sorted value list, type) instead, so the emitted id differs from
the claimed one; the second conjunct shows what the emitted id actually is. -/
theorem c2_counterexample :
    (get_cloudflare_records c2zlist c2recordsOf).map
        (fun z => z.records.map (fun r => r.id)) ≠
      [[specFirstRawRowId "023e105f4ecef8ad9ca31a8372d0c353" cexRow1]] ∧
    (get_cloudflare_records c2zlist c2recordsOf).map
        (fun z => z.records.map (fun r => r.id)) =
      [[cfRecordId "023e105f4ecef8ad9ca31a8372d0c353" c2merged]] := by
  constructor
  · decide
  · decide

/-- C2 amended: every record emitted by `get_cloudflare_records` carries the
id `get_resource_id('cfr', zone native id, key=value rendering of the merged
record)` — and a merged record's value list is the lexicographically sorted
list of the `content` values of *all* raw rows sharing its name (its type
comes from the first such row), so the id depends on every raw row merged for
that name, not only the first-seen one. -/
theorem c2_amended_record_id (zlist : List CFZone)
    (recordsOf : String → Except Unit (List MergedRecord)) :
    (∀ z ∈ get_cloudflare_records zlist recordsOf, ∀ r ∈ z.records,
      ∃ zobj ∈ zlist, ∃ mrs, recordsOf zobj.id = Except.ok mrs ∧ ∃ m ∈ mrs,
        r.id = cfRecordId zobj.id m ∧ r.name = m.name ∧ r.value = m.value ∧
          r.type = m.type) ∧
    (∀ rows : List RawRecord, ∀ m ∈ mergeRows rows,
      ∃ rfirst rest, rows.filter (fun x => decide (x.name = m.name)) = rfirst :: rest ∧
        m.value = sortStrings ((rfirst :: rest).map (fun x => x.content)) ∧
        m.type = rfirst.type) := by
  constructor
  · intro z hz r hr
    rcases mem_get_cloudflare_records zlist recordsOf z hz with
      ⟨zobj, hzobj, mrs, hok, hzeq, hne⟩
    subst hzeq
    have hr2 : r ∈ mrs.map (cfEmitRecord zobj) := hr
    rcases List.mem_map.mp hr2 with ⟨m, hm, rfl⟩
    exact ⟨zobj, hzobj, mrs, hok, m, hm, rfl, rfl, rfl, rfl⟩
  · intro rows m hm
    exact mem_mergeRows_eq rows m hm

theorem c2_amended_record_id_witness :
    ∃ zobj ∈ c2zlist, ∃ mrs, c2recordsOf zobj.id = Except.ok mrs ∧ ∃ m ∈ mrs,
      (cfEmitRecord c2zobj c2merged).id = cfRecordId zobj.id m ∧
      (cfEmitRecord c2zobj c2merged).name = m.name ∧
      (cfEmitRecord c2zobj c2merged).value = m.value ∧
      (cfEmitRecord c2zobj c2merged).type = m.type :=
  (c2_amended_record_id c2zlist c2recordsOf).1
    (cfEmitZone c2zobj (mergeRows [cexRow1, cexRow2])) (by decide)
    (cfEmitRecord c2zobj c2merged) (by decide)

/-- C9 counterexample: a request to the zone-records view with `type=A`
returns the TXT record as well — the parsed `type` argument is never applied,
so the result is not restricted to records of the requested type. -/
theorem c9_counterexample :
    ¬ (∀ r ∈ (dns_zone_records_get c9recs 1 25 (some "A")).2, r.type = "A") := by
  decide

/-- C9 amended: the zone-records view parses the optional `type` argument but
never applies it — the response is identical for any two `type` arguments —
and returns the manual offset slice `start = (page - 1) * count`,
`end = start + count` of the zone's materialized record list, together with
the full record count. -/
theorem c9_amended_zone_records_view (records : List ViewRecord) (page count : Nat)
    (t1 t2 : Option String) (hpage : 1 ≤ page) :
    dns_zone_records_get records page count t1 = dns_zone_records_get records page count t2 ∧
    (dns_zone_records_get records page count t1).1 = records.length ∧
    (dns_zone_records_get records page count t1).2 =
      (records.drop ((page - 1) * count)).take count ∧
    (dns_zone_records_get records page count t1).2.length ≤ count :=
  ⟨rfl, rfl, rfl, by
    show ((records.drop ((page - 1) * count)).take count).length ≤ count
    simp⟩

theorem c9_amended_zone_records_view_witness :
    (1 ≤ 1) ∧
    (dns_zone_records_get c9recs 1 25 (some "A") = dns_zone_records_get c9recs 1 25 none ∧
     (dns_zone_records_get c9recs 1 25 (some "A")).1 = c9recs.length ∧
     (dns_zone_records_get c9recs 1 25 (some "A")).2 =
       (c9recs.drop ((1 - 1) * 25)).take 25 ∧
     (dns_zone_records_get c9recs 1 25 (some "A")).2.length ≤ 25) :=
  ⟨by decide, c9_amended_zone_records_view c9recs 1 25 (some "A") none (by decide)⟩

/-- C6 counterexample: zone 0's record pass raises while deleting the stale
record, after the mid-pass commit of line 168.  The claim says the zone's
stored state is unchanged by the failed pass; in fact the committed create
survives: the zone ends up with records {1, 2} instead of its pre-pass {1}. -/
theorem c6_counterexample :
    (getZone (process_zones c6snap c6store c6fault).1 0).map
        (fun sz => sz.records.map (fun r => r.id)) = some [1, 2] ∧
    getZone (process_zones c6snap c6store c6fault).1 0 ≠
      getZone (phase1 c6snap c6store).1 0 := by
  constructor
  · decide
  · decide

/-- C6 amended: per-zone isolation with commit-granular rollback.  For every
snapshot (with distinct zone ids), store and fault assignment, each zone's
final stored entry is exactly `zoneRecordOutcome` of its entry after the zone
phase: unchanged when its record pass raises before the first commit, the
committed upserts only when it raises between the two commits, and the full
record diff when it completes — and this holds for every zone independently,
so zones after a failed one still run and commit, and no exception escapes. -/
theorem c6_amended_fault_isolation {ι : Type} [DecidableEq ι]
    (snap : List (SnapZone ι)) (s : Store ι) (fault : ι → RecFault)
    (hnd : (snap.map (fun z => z.zone_id)).Nodup) (z : SnapZone ι) (hz : z ∈ snap) :
    getZone (process_zones snap s fault).1 z.zone_id =
      zoneRecordOutcome fault z (getZone (phase1 snap s).1 z.zone_id) ∧
    (fault z.zone_id = RecFault.failUpsert →
      getZone (process_zones snap s fault).1 z.zone_id =
        getZone (phase1 snap s).1 z.zone_id) := by
  have hmain : getZone (process_zones snap s fault).1 z.zone_id =
      zoneRecordOutcome fault z (getZone (phase1 snap s).1 z.zone_id) := by
    unfold process_zones
    simp only []
    unfold phase2
    exact phase2Fold_self fault snap hnd z hz ((phase1 snap s).1, [])
  refine ⟨hmain, fun hf => ?_⟩
  rw [hmain]
  cases hg : getZone (phase1 snap s).1 z.zone_id with
  | none => rfl
  | some sz =>
    unfold zoneRecordOutcome
    rw [hf]

theorem c6_amended_fault_isolation_witness :
    ((c6snap.map (fun z => z.zone_id)).Nodup) ∧
    (getZone (process_zones c6snap c6store c6fault).1 c6zone.zone_id =
      zoneRecordOutcome c6fault c6zone (getZone (phase1 c6snap c6store).1 c6zone.zone_id)) :=
  ⟨by decide,
   (c6_amended_fault_isolation c6snap c6store c6fault (by decide) c6zone (by decide)).1⟩

/-- C5: zone deletion cascades.  For every stored zone whose id is absent
from the snapshot's zone-id set, after `process_zones` the zone is gone from
storage (and with it all the records it owns), and the write log contains,
consecutively, the deletion of each of its records followed by the deletion
of the zone — the records are deleted before the zone. -/
theorem c5_zone_delete_cascade {ι : Type} [DecidableEq ι] (snap : List (SnapZone ι))
    (s : Store ι) (fault : ι → RecFault) (sz : StoredZone ι) (hmem : sz ∈ s.zones)
    (hni : sz.zone_id ∉ snap.map (fun z => z.zone_id)) :
    getZone (process_zones snap s fault).1 sz.zone_id = none ∧
    ∃ pre post, (process_zones snap s fault).2 =
      pre ++ (sz.records.map (fun r => WriteOp.deleteRecord r.id) ++
        [WriteOp.deleteZone sz.zone_id]) ++ post := by
  constructor
  · have h2 : getZone (process_zones snap s fault).1 sz.zone_id =
        getZone (phase1 snap s).1 sz.zone_id := by
      unfold process_zones
      simp only []
      unfold phase2
      exact phase2Fold_other fault sz.zone_id snap _
        (fun z hz he => hni (he ▸ List.mem_map.mpr ⟨z, hz, rfl⟩))
    rw [h2]
    unfold phase1
    simp only []
    exact zoneDelete_getZone_gone s.zones _ _ sz.zone_id
      (List.mem_map.mpr ⟨sz, hmem, rfl⟩) hni
  · rcases zoneDelete_log_block s.zones (snap.map (fun z => z.zone_id))
      (zoneUpsertPhase snap s).1 sz hmem hni with ⟨pre, post, hpp⟩
    refine ⟨(zoneUpsertPhase snap s).2 ++ pre,
      post ++ (phase2 fault snap (phase1 snap s).1).2, ?_⟩
    show (phase1 snap s).2 ++ (phase2 fault snap (phase1 snap s).1).2 = _
    have hph1 : (phase1 snap s).2 =
        (zoneUpsertPhase snap s).2 ++
          (zoneDeletePhase s.zones (snap.map (fun z => z.zone_id))
            (zoneUpsertPhase snap s).1).2 := rfl
    rw [hph1, hpp]
    simp [List.append_assoc]

theorem c5_zone_delete_cascade_witness :
    (c5zone ∈ c5store.zones) ∧
    (getZone (process_zones ([] : List (SnapZone Nat)) c5store noFault).1 c5zone.zone_id =
        none ∧
     ∃ pre post, (process_zones ([] : List (SnapZone Nat)) c5store noFault).2 =
       pre ++ (c5zone.records.map (fun r => WriteOp.deleteRecord r.id) ++
         [WriteOp.deleteZone c5zone.zone_id]) ++ post) :=
  ⟨by decide,
   c5_zone_delete_cascade ([] : List (SnapZone Nat)) c5store noFault c5zone
     (by decide) (by decide)⟩

/-- C7: pagination exhaustion.  If every response reports `total_pages = 3`
and the loop is allowed at least 3 requests, both CloudFlare listing helpers
issue exactly the 3 page requests 1, 2, 3; the zone listing returns the three
result pages concatenated, and the record listing returns the three pages'
raw rows merged by name. -/
theorem c7_pagination_exhaustion {α : Type} (fetchZ : Nat → CFPage α)
    (fetchR : Nat → CFPage RawRecord) (fuel : Nat)
    (hz : ∀ p, (fetchZ p).total_pages = some 3)
    (hr : ∀ p, (fetchR p).total_pages = some 3)
    (hfuel : 3 ≤ fuel) :
    cloudflare_list_zones fetchZ fuel =
      some ([1, 2, 3], (fetchZ 1).result ++ ((fetchZ 2).result ++ (fetchZ 3).result)) ∧
    cloudflare_list_zone_records fetchR fuel =
      some ([1, 2, 3],
        mergeRows ((fetchR 1).result ++ ((fetchR 2).result ++ (fetchR 3).result))) := by
  rcases Nat.exists_eq_add_of_le hfuel with ⟨k, rfl⟩
  rw [show 3 + k = (k + 2) + 1 from by omega]
  constructor
  · unfold cloudflare_list_zones
    rw [cfListZonesLoop_step fetchZ (k + 2) 1 (by rw [hz 1]; rfl)]
    rw [show k + 2 = (k + 1) + 1 from rfl]
    rw [cfListZonesLoop_step fetchZ (k + 1) 2 (by rw [hz 2]; rfl)]
    rw [show k + 1 = k + 1 from rfl]
    have hdone : cfListZonesLoop fetchZ (k + 1) 3 = some ([3], (fetchZ 3).result) := by
      have h3 : pageDone (fetchZ 3).total_pages 3 = true := by rw [hz 3]; rfl
      simp [cfListZonesLoop, h3]
    rw [hdone]
  · unfold cloudflare_list_zone_records
    rw [cfListRecordsLoop_step fetchR (k + 2) 1 [] (by rw [hr 1]; rfl)]
    rw [show k + 2 = (k + 1) + 1 from rfl]
    rw [cfListRecordsLoop_step fetchR (k + 1) 2 _ (by rw [hr 2]; rfl)]
    have hdone : cfListRecordsLoop fetchR (k + 1) 3
        ((fetchR 2).result.foldl mergeStep ((fetchR 1).result.foldl mergeStep [])) =
        some ([3], (fetchR 3).result.foldl mergeStep
          ((fetchR 2).result.foldl mergeStep ((fetchR 1).result.foldl mergeStep []))) := by
      have h3 : pageDone (fetchR 3).total_pages 3 = true := by rw [hr 3]; rfl
      cases k with
      | zero => simp [cfListRecordsLoop, h3]
      | succ k2 => simp [cfListRecordsLoop, h3]
    rw [hdone]
    have hout : (fetchR 3).result.foldl mergeStep
        ((fetchR 2).result.foldl mergeStep ((fetchR 1).result.foldl mergeStep [])) =
        mergeRows ((fetchR 1).result ++ ((fetchR 2).result ++ (fetchR 3).result)) := by
      unfold mergeRows
      rw [List.foldl_append, List.foldl_append]
    rw [hout]

theorem c7_pagination_exhaustion_witness :
    cloudflare_list_zones c7fetchZ 3 =
      some ([1, 2, 3], (c7fetchZ 1).result ++ ((c7fetchZ 2).result ++ (c7fetchZ 3).result)) ∧
    cloudflare_list_zone_records c7fetchR 3 =
      some ([1, 2, 3],
        mergeRows ((c7fetchR 1).result ++ ((c7fetchR 2).result ++ (c7fetchR 3).result))) :=
  c7_pagination_exhaustion c7fetchZ c7fetchR 3 (fun _ => rfl) (fun _ => rfl) (by decide)

/-- C4: the claimed record-set diff is aborted by line 151 whenever any
matched record's fields changed.  Concretely: zone 0 stores records
{1: a/[1.1.1.1], 2: b/[2.2.2.2], 3: c/[3.3.3.3]} and the snapshot carries
{2: b unchanged, 3: c with value [9.9.9.9], 4: d new}.  Record 3 matches by
id with changed fields, so `record.update(data)` returns `True` and the debug
call evaluates `zone.name` on the snapshot dict bound at line 140: line 151
raises `AttributeError`, the bare `except` of line 182 rolls the whole
uncommitted pass back (the first commit is only at line 168).  The stored
record set stays {1, 2, 3} with the old properties — not the claimed
{2, 3, 4} — the zone's entry is exactly its phase-1 entry, and the run
performs zero record writes. -/
theorem c4_line151_abort :
    recordUpsert c4szone.records c4zone.records = Except.error () ∧
    (getZone (process_zones c4snap c4store noFault).1 0).map
        (fun sz => sz.records) = some [⟨1, c4pA⟩, ⟨2, c4pB⟩, ⟨3, c4pC⟩] ∧
    getZone (process_zones c4snap c4store noFault).1 0 =
      getZone (phase1 c4snap c4store).1 0 ∧
    (process_zones c4snap c4store noFault).2 = [] :=
  ⟨rfl, by decide, by decide, by decide⟩
